import Mathlib

/-!
# Advanced Toast: a verification development

A shallow embedding of `src/assets/advanced-toast.js`.

The library keeps its state in module-level variables (`toastCounter`,
`currentPosition`, `soundEnabled`), in the single `ToastQueue` instance and in
the host document (the `#toastContainer` element and its children).  The
embedding threads all of it through one `State` record.

* Handles: the string `toast-<n>` is represented by the number `n`.
* The document: only `#toastContainer` and the toast nodes appended to it are
  modelled.  A node is identified by its id; the library never re-attaches a
  node it has created.
* Deferred callbacks (`setTimeout`, `requestAnimationFrame`) are kept in
  `State.timers` together with their delay.  The event `Event.timer i` runs the
  `i`-th pending callback, so every order in which the browser may run them is
  covered.
* A `MutationObserver` callback is delivered in the same task as the removal
  it reports; states are observed between tasks.
* Audio output and inline style properties are not part of the state.
* `fire`, and with it `process`, `step` and `run`, describe the calls of `fire`
  that return.  On an options object (an object whose `actions`, when present,
  is an array) `fire` throws in one place, the sound lookup under an inherited
  key (`soundThrows`); `fireE`, `processE`, `queueE` and `confirmE` add the
  throw and the state it leaves behind.
* The lookups in `toastConfig.icons` and `toastConfig.sounds` follow the
  prototype chain of an object literal (`objectPrototypeKeys`).
* A `ToastNode` records the texts that `fire` interpolates into `innerHTML`;
  it describes the element that the browser builds when these texts carry no
  markup (`ToastNode.markupFree`).
* `toastCounter` is a natural number; the JavaScript counter is exact up to
  2^53 calls of `fire`.
* `Swal.fire` shapes its options and calls `fire`; in the event loop its calls
  are `Event.fire` with the options `swalToastOptions` builds.
* `processNoFlag`, `stepNoFlag` and `runNoFlag` are the library with the
  `processing` flag taken out of `ToastQueue`, to compare with.
* `State.log` is a history variable: it records the calls of `fire`, the
  requests appended by `ToastQueue.add` and the requests admitted by
  `ToastQueue.process`.  No function reads it.
-/

namespace AdvancedToast

/-! ## Data model -/

/-- Callbacks attached to an action button.  `resolve p b` is the closure
`() => resolve(b)` that `confirm` builds for its promise number `p`;
`host tag` is a callback supplied by the page, which does not touch the
library state; `guarded f` is the closure `() => { if (f) f(); }` that
`Swal.fire` builds around the optional page callback `f`. -/
inductive Callback where
  | resolve (p : Nat) (b : Bool)
  | host (tag : Nat)
  | guarded (f : Option Nat)
  deriving DecidableEq, Repr

/-- An entry of `options.actions`. -/
structure Action where
  text : Option String := none
  onClick : Option Callback := none
  closeOnClick : Option Bool := none
  deriving DecidableEq, Repr

/-- The values the `sound` option takes: a boolean or the key of a tone. -/
inductive Sound where
  | flag (b : Bool)
  | key (k : String)
  deriving DecidableEq, Repr

/-- The options object of `fire`; `none` is an absent key. -/
structure Options where
  type : Option String := none
  title : Option String := none
  message : Option String := none
  icon : Option String := none
  duration : Option Int := none
  position : Option String := none
  animation : Option String := none
  sound : Option Sound := none
  customColor : Option String := none
  customBgColor : Option String := none
  customTextColor : Option String := none
  actions : Option (List Action) := none
  progressBar : Option Bool := none
  closeButton : Option Bool := none
  autoHide : Option Bool := none
  deriving DecidableEq, Repr

/-- The options object of `confirm`: the keys of `fire` plus the two labels. -/
structure ConfirmOptions extends Options where
  confirmText : Option String := none
  cancelText : Option String := none
  deriving DecidableEq, Repr

/-- What `fire` interpolates into the `toast-icon` element: a text, or the
member of `Object.prototype` that the lookup `toastConfig.icons[type]` finds
under an inherited key, printed by the template as the engine prints it. -/
inductive IconValue where
  | text (t : String)
  | inherited (key : String)
  deriving DecidableEq, Repr

/-- A toast element: a child of `#toastContainer`.  The fields `icon`, `title`,
`message` and the `text` of the actions are what `fire` interpolates into
`innerHTML`; the record describes the element the browser builds when these
texts carry no markup (`ToastNode.markupFree`). -/
structure ToastNode where
  id : Nat
  classList : List String
  icon : IconValue
  title : String
  message : String
  actions : List Action
  closeButton : Bool
  deriving DecidableEq, Repr

/-- The `#toastContainer` element. -/
structure Container where
  className : String
  children : List ToastNode
  deriving DecidableEq, Repr

/-- The callbacks the library hands to `setTimeout` and
`requestAnimationFrame`. -/
inductive Task where
  /-- `() => toast.classList.add('show')` (fire) -/
  | addShow (toastId : Nat)
  /-- `() => hide(toastId)` (auto hide in fire, stagger in clear) -/
  | hide (toastId : Nat)
  /-- `() => { if (toast.parentNode) toast.remove() }` (hide) -/
  | remove (toastId : Nat)
  /-- `() => this.process()` (end of ToastQueue.process) -/
  | process
  /-- `() => { this.processing = false; this.process() }` (observer) -/
  | settle
  /-- `() => fire(toastOptions)` (batch) -/
  | fire (o : Options)
  deriving DecidableEq, Repr

/-- Entries of the history variable. -/
inductive Obs where
  | fired (o : Options) (toastId : Nat)
  | enqueued (o : Options)
  | admitted (o : Options) (toastId : Nat)
  deriving DecidableEq, Repr

/-- The fields of `class ToastQueue`. -/
structure ToastQueue where
  queue : List Options
  processing : Bool
  maxConcurrent : Int
  currentCount : Int
  deriving DecidableEq, Repr

/-- The state of the library and of the part of the page it works on. -/
structure State where
  toastCounter : Nat
  currentPosition : String
  soundEnabled : Bool
  container : Option Container
  toastQueue : ToastQueue
  /-- connected MutationObservers, each with the `toastId` it waits for -/
  observers : List Nat
  /-- pending deferred callbacks with their delay in ms -/
  timers : List (Int × Task)
  /-- promises created by `confirm`; `none` is pending -/
  promises : List (Option Bool)
  log : List Obs
  deriving DecidableEq, Repr

/-- The `toastConfig.positions` table. -/
def positions : List String :=
  ["top-left", "top-center", "top-right",
   "center", "bottom-left", "bottom-center", "bottom-right"]

/-- The `new ToastQueue()` constructor. -/
def ToastQueue.new : ToastQueue :=
  { queue := [], processing := false, maxConcurrent := 3, currentCount := 0 }

/-- The state right after the script has been evaluated, before the document
is ready. -/
def init : State :=
  { toastCounter := 0, currentPosition := "top-right", soundEnabled := true,
    container := none, toastQueue := ToastQueue.new, observers := [],
    timers := [], promises := [], log := [] }

/-! ## JavaScript helpers -/

/-- The expression `x || d` for an optional string: the empty string and
`undefined` are falsy. -/
def orDefault (x : Option String) (d : String) : String :=
  match x with
  | some v => if v = "" then d else v
  | none => d

/-- The call `classList.add(c)`. -/
def classListAdd (c : String) (l : List String) : List String :=
  if c ∈ l then l else l ++ [c]

/-- The call `classList.remove(c)`. -/
def classListRemove (c : String) (l : List String) : List String :=
  l.filter (fun x => x ≠ c)

/-- ASCII whitespace (space, tab, line feed, form feed, carriage return), which
separates the tokens of a `class` attribute. -/
def isAsciiWhitespace (c : Char) : Bool :=
  c.toNat = 32 || c.toNat = 9 || c.toNat = 10 || c.toNat = 12 || c.toNat = 13

/-- Split a list of characters at whitespace; `cur` holds the characters of
the token being read, last one first. -/
def splitTokens : List Char → List Char → List String
  | [], cur => if cur = [] then [] else [String.mk cur.reverse]
  | c :: cs, cur =>
    if isAsciiWhitespace c then
      (if cur = [] then splitTokens cs [] else String.mk cur.reverse :: splitTokens cs [])
    else splitTokens cs (c :: cur)

/-- The class list an element has after `element.className = className`: the
whitespace-separated tokens, each once, in order of first occurrence. -/
def classTokens (className : String) : List String :=
  (splitTokens className.toList []).foldl (fun acc t => classListAdd t acc) []

/-- Object spread `{...defaults, ...overrides}` on the keys of `fire`. -/
def Options.spread (defaults overrides : Options) : Options :=
  { type := overrides.type <|> defaults.type
    title := overrides.title <|> defaults.title
    message := overrides.message <|> defaults.message
    icon := overrides.icon <|> defaults.icon
    duration := overrides.duration <|> defaults.duration
    position := overrides.position <|> defaults.position
    animation := overrides.animation <|> defaults.animation
    sound := overrides.sound <|> defaults.sound
    customColor := overrides.customColor <|> defaults.customColor
    customBgColor := overrides.customBgColor <|> defaults.customBgColor
    customTextColor := overrides.customTextColor <|> defaults.customTextColor
    actions := overrides.actions <|> defaults.actions
    progressBar := overrides.progressBar <|> defaults.progressBar
    closeButton := overrides.closeButton <|> defaults.closeButton
    autoHide := overrides.autoHide <|> defaults.autoHide }

/-- Replace the first element satisfying `p` by its image under `f`. -/
def modifyFirst {α : Type} (p : α → Bool) (f : α → α) : List α → List α
  | [] => []
  | x :: xs => if p x then f x :: xs else x :: modifyFirst p f xs

/-! ## The document -/

/-- The children of the container; no container, no children. -/
def State.children (s : State) : List ToastNode :=
  match s.container with
  | some c => c.children
  | none => []

/-- The ids of the toast nodes in the container. -/
def State.ids (s : State) : List Nat :=
  s.children.map (fun t => t.id)

/-- The call `document.getElementById('toast-<n>')`. -/
def State.getElementById (s : State) (toastId : Nat) : Option ToastNode :=
  s.children.find? (fun t => t.id = toastId)

/-- Update in place the element that `getElementById` returns. -/
def State.modifyNode (s : State) (toastId : Nat) (f : ToastNode → ToastNode) : State :=
  match s.container with
  | some c =>
    let c1 : Container := { c with children := modifyFirst (fun t => t.id = toastId) f c.children }
    { s with container := some c1 }
  | none => s

/-- The function `initializeContainer`. -/
def initializeContainer (s : State) : State :=
  match s.container with
  | some _ => s
  | none =>
    let c : Container :=
      { className := "toast-container " ++ s.currentPosition, children := [] }
    { s with container := some c }

/-- The function `updateContainerPosition`. -/
def updateContainerPosition (position : String) (s : State) : State :=
  match s.container with
  | some c =>
    let c1 : Container :=
      { c with className :=
          "toast-container " ++ (if position = "" then s.currentPosition else position) }
    { s with container := some c1 }
  | none => s

/-- The call `container.appendChild(toast)`. -/
def appendChild (toast : ToastNode) (s : State) : State :=
  match s.container with
  | some c =>
    let c1 : Container := { c with children := c.children ++ [toast] }
    { s with container := some c1 }
  | none => s

/-- The connected observers are told that the node `removed` has left the
container: each observer whose `toastId` is the id of the node decrements
`currentCount`, disconnects and schedules its settle callback. -/
def deliver (removed : Nat) (s : State) : State :=
  let k := s.observers.count removed
  { s with
    toastQueue := { s.toastQueue with currentCount := s.toastQueue.currentCount - (k : Int) }
    observers := s.observers.filter (fun t => t ≠ removed)
    timers := s.timers ++ List.replicate k ((100 : Int), Task.settle) }

/-- The node `toast-<n>` is detached from the container if it is a child of
it (`if (toast.parentNode) toast.remove()`), and the observers are told. -/
def removeChild (toastId : Nat) (s : State) : State :=
  match s.container with
  | some c =>
    if c.children.any (fun t => t.id = toastId) then
      let c1 : Container := { c with children := c.children.eraseP (fun t => t.id = toastId) }
      deliver toastId { s with container := some c1 }
    else s
  | none => s

/-! ## The library functions -/

/-- The names of the members of `Object.prototype`, which a property lookup on
an object literal such as `toastConfig.icons` or `toastConfig.sounds` finds
when the key is not one of its own. -/
def objectPrototypeKeys : List String :=
  ["constructor", "__defineGetter__", "__defineSetter__", "hasOwnProperty",
   "__lookupGetter__", "__lookupSetter__", "isPrototypeOf", "propertyIsEnumerable",
   "toString", "valueOf", "__proto__", "toLocaleString"]

/-- The lookup `toastConfig.icons[type]`: the four own keys, then the
inherited ones; `none` is `undefined`. -/
def icons (type : String) : Option IconValue :=
  if type = "success" then some (IconValue.text "✅")
  else if type = "error" then some (IconValue.text "❌")
  else if type = "warning" then some (IconValue.text "⚠️")
  else if type = "info" then some (IconValue.text "ℹ️")
  else if type ∈ objectPrototypeKeys then some (IconValue.inherited type)
  else none

/-- The toast element that `fire` builds for `options`: the class list of
`toast ${type} animate-${animation}`, and the texts it interpolates into
`innerHTML`. -/
def mkToast (options : Options) (toastId : Nat) : ToastNode :=
  let type := options.type.getD "info"
  let animation := options.animation.getD "slide-in"
  let progressBar := options.progressBar.getD true
  let autoHide := options.autoHide.getD true
  let toastIcon :=
    match options.icon with
    | some i => if i = "" then (icons type).getD (IconValue.text "ℹ️") else IconValue.text i
    | none => (icons type).getD (IconValue.text "ℹ️")
  let base := classTokens ("toast " ++ type ++ " animate-" ++ animation)
  { id := toastId
    classList := if progressBar && autoHide then classListAdd "with-progress" base else base
    icon := toastIcon
    title := options.title.getD "Notification"
    message := options.message.getD ""
    actions := options.actions.getD []
    closeButton := options.closeButton.getD true }

/-- The block `// Set container position` of `fire`: the `position` option
(default `currentPosition`) replaces the current position when it is truthy
and differs from it. -/
def applyPosition (options : Options) (s : State) : State :=
  let position := options.position.getD s.currentPosition
  if position ≠ "" ∧ position ≠ s.currentPosition then
    updateContainerPosition position { s with currentPosition := position }
  else s

/-- The function `fire` when its sound block returns (`soundThrows` tells when
it does not, `fireE` adds the throw): the handle and the new state. -/
def fire (options : Options) (s : State) : Nat × State :=
  let s1 := initializeContainer s
  let duration := options.duration.getD 5000
  let autoHide := options.autoHide.getD true
  let s2 := applyPosition options s1
  let toastId := s2.toastCounter
  let s3 := appendChild (mkToast options toastId) { s2 with toastCounter := s2.toastCounter + 1 }
  (toastId,
   { s3 with
     timers := s3.timers ++ [((0 : Int), Task.addShow toastId)] ++
       (if autoHide ∧ duration > 0 then [(duration, Task.hide toastId)] else [])
     log := s3.log ++ [Obs.fired options toastId] })

/-- The function `hide`. -/
def hide (toastId : Nat) (s : State) : State :=
  match s.getElementById toastId with
  | some _ =>
    let s1 := s.modifyNode toastId (fun t =>
      { t with classList := classListAdd "hide" (classListRemove "show" t.classList) })
    { s1 with timers := s1.timers ++ [((400 : Int), Task.remove toastId)] }
  | none => s

/-- The function `clear`. -/
def clear (s : State) : State :=
  let toasts := s.children.filter (fun t => "toast" ∈ t.classList ∧ "show" ∈ t.classList)
  { s with timers := s.timers ++
      toasts.enum.map (fun x => ((x.1 : Int) * 100, Task.hide x.2.id)) }

/-- The function `setPosition`. -/
def setPosition (position : String) (s : State) : State :=
  if position ∈ positions then
    updateContainerPosition position { s with currentPosition := position }
  else s

/-- The function `toggleSound`. -/
def toggleSound (s : State) : Bool × State :=
  (!s.soundEnabled, { s with soundEnabled := !s.soundEnabled })

/-- The method `ToastQueue.process`. -/
def process (s : State) : State :=
  let q := s.toastQueue
  if q.processing ∨ q.currentCount ≥ q.maxConcurrent then s
  else
    match q.queue with
    | [] => s
    | options :: rest =>
      let s1 := { s with toastQueue :=
        { q with processing := true, queue := rest, currentCount := q.currentCount + 1 } }
      let r := fire options s1
      let toastId := r.1
      let s2 := r.2
      let s3 :=
        match s2.container with
        | some _ => { s2 with observers := s2.observers ++ [toastId] }
        | none => s2
      { s3 with
        toastQueue := { s3.toastQueue with processing := false }
        timers := s3.timers ++ [((200 : Int), Task.process)]
        log := s3.log ++ [Obs.admitted options toastId] }

/-- The method `ToastQueue.add`. -/
def add (options : Options) (s : State) : State :=
  process { s with
    toastQueue := { s.toastQueue with queue := s.toastQueue.queue ++ [options] }
    log := s.log ++ [Obs.enqueued options] }

/-- The function `queue`. -/
def queue (options : Options) (s : State) : State :=
  add options s

/-- The function `batch`. -/
def batch (toastArray : List Options) (s : State) : State :=
  { s with timers := s.timers ++
      toastArray.enum.map (fun x => ((x.1 : Int) * 600, Task.fire x.2)) }

/-- The preset `success`. -/
def success (title message : Option String) (options : Options) (s : State) : Nat × State :=
  fire (Options.spread
    { type := some "success", title := some (orDefault title "Success!"),
      message := some (orDefault message ""), sound := some (Sound.key "success") } options) s

/-- The preset `error`. -/
def error (title message : Option String) (options : Options) (s : State) : Nat × State :=
  fire (Options.spread
    { type := some "error", title := some (orDefault title "Error!"),
      message := some (orDefault message ""), sound := some (Sound.key "error") } options) s

/-- The preset `warning`. -/
def warning (title message : Option String) (options : Options) (s : State) : Nat × State :=
  fire (Options.spread
    { type := some "warning", title := some (orDefault title "Warning!"),
      message := some (orDefault message ""), sound := some (Sound.key "notification") } options) s

/-- The preset `info`. -/
def info (title message : Option String) (options : Options) (s : State) : Nat × State :=
  fire (Options.spread
    { type := some "info", title := some (orDefault title "Info"),
      message := some (orDefault message ""), sound := some (Sound.key "notification") } options) s

/-- The helper `progress`; the returned number is the `id` of the controller
object, whose `close` is `hide id` and whose `update` is `update id`. -/
def progress (title initialMessage : Option String) (options : Options) (s : State) :
    Nat × State :=
  fire (Options.spread
    { type := some "info", title := some (orDefault title "Loading..."),
      message := some (orDefault initialMessage "Please wait..."),
      duration := some 0, progressBar := some false, autoHide := some false } options) s

/-- The `update` closure of a progress controller. -/
def update (toastId : Nat) (newMessage : String) (s : State) : State :=
  s.modifyNode toastId (fun t => { t with message := newMessage })

/-- The options `confirm` passes to `fire` for its promise number `p`. -/
def confirmOptions (title message : Option String) (options : ConfirmOptions) (p : Nat) :
    Options :=
  Options.spread
    { type := some "info", title := some (orDefault title "Confirm"),
      message := some (orDefault message "Are you sure?"),
      duration := some 0, autoHide := some false,
      actions := some
        [ { text := some (orDefault options.confirmText "Yes"),
            onClick := some (Callback.resolve p true) },
          { text := some (orDefault options.cancelText "No"),
            onClick := some (Callback.resolve p false) } ] }
    options.toOptions

/-- The function `confirm`: returns the number of the promise it creates. -/
def confirm (title message : Option String) (options : ConfirmOptions) (s : State) :
    Nat × State :=
  let p := s.promises.length
  let s1 := { s with promises := s.promises ++ [none] }
  (p, (fire (confirmOptions title message options p) s1).2)

/-- The call `resolve(b)` of promise `p`: a settled promise keeps its value. -/
def resolvePromise (p : Nat) (b : Bool) (s : State) : State :=
  match s.promises[p]? with
  | some none => { s with promises := s.promises.set p (some b) }
  | _ => s

/-- Run a callback attached to an action button. -/
def runCallback (cb : Callback) (s : State) : State :=
  match cb with
  | Callback.resolve p b => resolvePromise p b s
  | Callback.host _ => s
  | Callback.guarded _ => s

/-- The click listener of the close button of toast `toastId`. -/
def clickClose (toastId : Nat) (s : State) : State :=
  match s.getElementById toastId with
  | some toast => if toast.closeButton then hide toastId s else s
  | none => s

/-- The click listener of action button number `index` of toast `toastId`. -/
def clickAction (toastId index : Nat) (s : State) : State :=
  match s.getElementById toastId with
  | some toast =>
    match toast.actions[index]? with
    | some action =>
      let s1 :=
        match action.onClick with
        | some cb => runCallback cb s
        | none => s
      if action.closeOnClick ≠ some false then hide toastId s1 else s1
    | none => s
  | none => s

/-- Run a deferred callback. -/
def runTask (t : Task) (s : State) : State :=
  match t with
  | Task.addShow toastId =>
    s.modifyNode toastId (fun n => { n with classList := classListAdd "show" n.classList })
  | Task.hide toastId => hide toastId s
  | Task.remove toastId => removeChild toastId s
  | Task.process => process s
  | Task.settle => process { s with toastQueue := { s.toastQueue with processing := false } }
  | Task.fire o => (fire o s).2

/-! ## The event loop -/

/-- What can happen to the library: the calls of its public functions, the
clicks on the buttons it renders, a pending deferred callback becoming due,
the document becoming ready, and the page detaching a toast node itself. -/
inductive Event where
  | domContentLoaded
  | fire (o : Options)
  | hide (toastId : Nat)
  | clear
  | setPosition (p : String)
  | toggleSound
  | queue (o : Options)
  | batch (toastArray : List Options)
  | success (title message : Option String) (o : Options)
  | error (title message : Option String) (o : Options)
  | warning (title message : Option String) (o : Options)
  | info (title message : Option String) (o : Options)
  | progress (title initialMessage : Option String) (o : Options)
  | update (toastId : Nat) (newMessage : String)
  | confirm (title message : Option String) (o : ConfirmOptions)
  | clickClose (toastId : Nat)
  | clickAction (toastId index : Nat)
  | timer (i : Nat)
  | detach (toastId : Nat)
  deriving DecidableEq, Repr

/-- One task of the event loop. -/
def step (e : Event) (s : State) : State :=
  match e with
  | Event.domContentLoaded => initializeContainer s
  | Event.fire o => (fire o s).2
  | Event.hide toastId => hide toastId s
  | Event.clear => clear s
  | Event.setPosition p => setPosition p s
  | Event.toggleSound => (toggleSound s).2
  | Event.queue o => queue o s
  | Event.batch toastArray => batch toastArray s
  | Event.success t m o => (success t m o s).2
  | Event.error t m o => (error t m o s).2
  | Event.warning t m o => (warning t m o s).2
  | Event.info t m o => (info t m o s).2
  | Event.progress t m o => (progress t m o s).2
  | Event.update toastId newMessage => update toastId newMessage s
  | Event.confirm t m o => (confirm t m o s).2
  | Event.clickClose toastId => clickClose toastId s
  | Event.clickAction toastId index => clickAction toastId index s
  | Event.timer i =>
    match s.timers[i]? with
    | some x => runTask x.2 { s with timers := s.timers.eraseIdx i }
    | none => s
  | Event.detach toastId => removeChild toastId s

/-- Run a sequence of events, first to last. -/
def run (es : List Event) (s : State) : State :=
  es.foldl (fun acc e => step e acc) s

/-! ## Reading the history -/

/-- The handles returned by the calls of `fire`, in call order. -/
def firedHandles : List Obs → List Nat
  | [] => []
  | Obs.fired _ h :: l => h :: firedHandles l
  | _ :: l => firedHandles l

/-- The requests appended by `ToastQueue.add`, in arrival order. -/
def enqueuedRequests : List Obs → List Options
  | [] => []
  | Obs.enqueued o :: l => o :: enqueuedRequests l
  | _ :: l => enqueuedRequests l

/-- The requests `ToastQueue.process` handed to `fire`, in admission order. -/
def admittedRequests : List Obs → List Options
  | [] => []
  | Obs.admitted o _ :: l => o :: admittedRequests l
  | _ :: l => admittedRequests l

/-- The handles of the admitted requests, in admission order. -/
def admittedHandles : List Obs → List Nat
  | [] => []
  | Obs.admitted _ h :: l => h :: admittedHandles l
  | _ :: l => admittedHandles l

/-- The requests passed to `Toast.queue` by a sequence of events, in call order. -/
def queuedBy : List Event → List Options
  | [] => []
  | Event.queue o :: es => o :: queuedBy es
  | _ :: es => queuedBy es

/-- Every handle of `hs` has its node in the container after each event of `es`
run from `s`. -/
def aliveThroughout (hs : List Nat) : List Event → State → Bool
  | [], _ => true
  | e :: es, s =>
    hs.all (fun h => decide (h ∈ (step e s).ids)) && aliveThroughout hs es (step e s)

/-- Three requests, the first of which never hides itself, then a fourth. -/
def burstRequests : List Options :=
  [{ duration := some 0, autoHide := some false }, {}, {}, { title := some "fourth" }]

/-- Two admission timers, a call of `hide`, a direct `fire` and one more
`Toast.queue`: the nodes of the first three toasts stay attached. -/
def burstEvents : List Event :=
  [Event.timer 3, Event.timer 5, Event.hide 1, Event.fire {}, Event.queue {}]

/-- One queued toast (handle 0) and one toast fired directly (handle 1). -/
def mixedEvents : List Event := [Event.queue {}, Event.fire {}]

/-- The number `min(queue.length, maxConcurrent - currentCount)` of requests
that fit in the free capacity. -/
def admissible (s : State) : Nat :=
  min s.toastQueue.queue.length
    (s.toastQueue.maxConcurrent - s.toastQueue.currentCount).toNat

/-- Five requests are queued, then the nodes of the first two admitted toasts
are removed before any settle callback has run: two requests are pending and
two places are free. -/
def twoPendingTwoFree : State :=
  run [Event.queue {}, Event.queue {}, Event.queue {}, Event.queue { title := some "d" },
    Event.queue { title := some "e" }, Event.detach 0, Event.detach 1] init

/-- The state with its list of pending callbacks replaced. -/
def State.withTimers (s : State) (T : List (Int × Task)) : State :=
  { s with timers := T }

/-- The class changes of `hide`: `show` is removed, `hide` is added. -/
def hideClasses (t : ToastNode) : ToastNode :=
  { t with classList := classListAdd "hide" (classListRemove "show" t.classList) }

/-- A toast has been fired and is on the surface with handle 0. -/
def oneToast : State := run [Event.fire {}] init

/-- The document is ready and the container exists, at the default position. -/
def ready : State := run [Event.domContentLoaded] init

/-- Is the event an activation of an action button? -/
def Event.isClickAction : Event → Bool
  | Event.clickAction _ _ => true
  | _ => false

/-- The options of a `confirm` call that carries its own `actions`: one
button without a callback. -/
def ownActions : ConfirmOptions :=
  { actions := some [{ text := some "OK" }] }

/-- A `confirm` call with both labels, on the initial state. -/
def plainConfirm : ConfirmOptions :=
  { confirmText := some "Delete", cancelText := some "Keep" }

/-- Events before the first `Toast.queue`: the document becomes ready and a
toast is fired directly (it takes the handle 0). -/
def burstPrelude : List Event := [Event.domContentLoaded, Event.fire {}]

/-- The options object of `Swal.fire`: the SweetAlert-style keys next to the
keys of `fire`, which the spread `...options` passes on.  The two button flags
are booleans; `preConfirm` and `preDeny` are page callbacks. -/
structure SwalOptions extends Options where
  text : Option String := none
  html : Option String := none
  timer : Option Int := none
  showConfirmButton : Option Bool := none
  showCancelButton : Option Bool := none
  confirmButtonText : Option String := none
  cancelButtonText : Option String := none
  preConfirm : Option Nat := none
  preDeny : Option Nat := none
  deriving DecidableEq, Repr

/-- The expression `options.timer || 5000`: zero and `undefined` are falsy. -/
def timerOrDefault (timer : Option Int) : Int :=
  match timer with
  | some t => if t = 0 then 5000 else t
  | none => 5000

/-- The array `actions` that `Swal.fire` builds inside
`if (options.showConfirmButton || options.showCancelButton)`. -/
def swalActions (options : SwalOptions) : List Action :=
  (if options.showConfirmButton ≠ some false then
    [{ text := some (orDefault options.confirmButtonText "OK"),
       onClick := some (Callback.guarded options.preConfirm) }]
   else []) ++
  (if options.showCancelButton = some true then
    [{ text := some (orDefault options.cancelButtonText "Cancel"),
       onClick := some (Callback.guarded options.preDeny) }]
   else [])

/-- The object `toastOptions` that `Swal.fire` passes to `Toast.fire`.  Its
key `showConfirmButton`, which `fire` does not read, is left out. -/
def swalToastOptions (options : SwalOptions) : Options :=
  let toastOptions := Options.spread
    { type := some (orDefault options.icon (orDefault options.type "info")),
      title := some (orDefault options.title ""),
      message := some (orDefault options.text (orDefault options.html "")),
      duration := some (timerOrDefault options.timer),
      position := some (orDefault options.position "top-right") }
    options.toOptions
  if options.showConfirmButton = some true ∨ options.showCancelButton = some true then
    { toastOptions with actions := some (swalActions options), duration := some 0 }
  else toastOptions

/-- The function `Swal.fire`. -/
def Swal.fire (options : SwalOptions) (s : State) : Nat × State :=
  AdvancedToast.fire (swalToastOptions options) s

/-- A `Swal.fire` call that asks for a cancel button only, with a timer. -/
def cancelOnly : SwalOptions :=
  { title := some "Delete?", timer := some 3000, showCancelButton := some true }

/-- The state with the fields of its `ToastQueue` replaced. -/
def State.withQueue (s : State) (q : ToastQueue) : State :=
  { s with toastQueue := q }

/-- The method `ToastQueue.process` with the `processing` flag removed: the
guard reads `currentCount` only, and the flag is neither set nor cleared. -/
def processNoFlag (s : State) : State :=
  let q := s.toastQueue
  if q.currentCount ≥ q.maxConcurrent then s
  else
    match q.queue with
    | [] => s
    | options :: rest =>
      let s1 := { s with toastQueue :=
        { q with queue := rest, currentCount := q.currentCount + 1 } }
      let r := fire options s1
      let toastId := r.1
      let s2 := r.2
      let s3 :=
        match s2.container with
        | some _ => { s2 with observers := s2.observers ++ [toastId] }
        | none => s2
      { s3 with
        timers := s3.timers ++ [((200 : Int), Task.process)]
        log := s3.log ++ [Obs.admitted options toastId] }

/-- The method `ToastQueue.add` of the queue without the flag. -/
def addNoFlag (options : Options) (s : State) : State :=
  processNoFlag { s with
    toastQueue := { s.toastQueue with queue := s.toastQueue.queue ++ [options] }
    log := s.log ++ [Obs.enqueued options] }

/-- Run a deferred callback of the library without the flag: the settle
callback of an observer is `() => { this.process() }`. -/
def runTaskNoFlag (t : Task) (s : State) : State :=
  match t with
  | Task.process => processNoFlag s
  | Task.settle => processNoFlag s
  | Task.addShow toastId => runTask (Task.addShow toastId) s
  | Task.hide toastId => runTask (Task.hide toastId) s
  | Task.remove toastId => runTask (Task.remove toastId) s
  | Task.fire o => runTask (Task.fire o) s

/-- One task of the event loop of the library without the flag. -/
def stepNoFlag (e : Event) (s : State) : State :=
  match e with
  | Event.queue o => addNoFlag o s
  | Event.timer i =>
    match s.timers[i]? with
    | some x => runTaskNoFlag x.2 { s with timers := s.timers.eraseIdx i }
    | none => s
  | Event.domContentLoaded => step Event.domContentLoaded s
  | Event.fire o => step (Event.fire o) s
  | Event.hide toastId => step (Event.hide toastId) s
  | Event.clear => step Event.clear s
  | Event.setPosition p => step (Event.setPosition p) s
  | Event.toggleSound => step Event.toggleSound s
  | Event.batch toastArray => step (Event.batch toastArray) s
  | Event.success t m o => step (Event.success t m o) s
  | Event.error t m o => step (Event.error t m o) s
  | Event.warning t m o => step (Event.warning t m o) s
  | Event.info t m o => step (Event.info t m o) s
  | Event.progress t m o => step (Event.progress t m o) s
  | Event.update toastId newMessage => step (Event.update toastId newMessage) s
  | Event.confirm t m o => step (Event.confirm t m o) s
  | Event.clickClose toastId => step (Event.clickClose toastId) s
  | Event.clickAction toastId index => step (Event.clickAction toastId index) s
  | Event.detach toastId => step (Event.detach toastId) s

/-- Run a sequence of events on the library without the flag. -/
def runNoFlag (es : List Event) (s : State) : State :=
  es.foldl (fun acc e => stepNoFlag e acc) s

/-- The states in which `ToastQueue.process` is entered while the task `e`
runs from `s`: after the push in `add`, in the 200 ms callback of a pass, and
in the settle callback of an observer after it has cleared the flag. -/
def processEntries (e : Event) (s : State) : List State :=
  match e with
  | Event.queue o =>
    [{ s with
       toastQueue := { s.toastQueue with queue := s.toastQueue.queue ++ [o] }
       log := s.log ++ [Obs.enqueued o] }]
  | Event.timer i =>
    match s.timers[i]? with
    | some (_, Task.process) => [{ s with timers := s.timers.eraseIdx i }]
    | some (_, Task.settle) =>
      [{ s with
         timers := s.timers.eraseIdx i
         toastQueue := { s.toastQueue with processing := false } }]
    | _ => []
  | _ => []

/-- The document is ready, a request is queued and its toast is admitted; the
200 ms callback of the pass is the pending callback number 2. -/
def oneQueued : State := run [Event.domContentLoaded, Event.queue {}] init

/-- The text has no `<`: assigned through `innerHTML` it yields text only, no
element. -/
def noMarkup (t : String) : Bool :=
  !(t.toList.any (fun c => c.toNat = 60))

/-- The icon is printed without markup; the print of a member of
`Object.prototype` (a native function, or `[object Object]`) has none. -/
def IconValue.markupFree (v : IconValue) : Bool :=
  match v with
  | IconValue.text t => noMarkup t
  | IconValue.inherited _ => true

/-- None of the texts that `fire` interpolates into `innerHTML` (icon, title,
message, the labels `action.text || 'Action'`) carries markup.  Then the
element has the structure of the template: its `.toast-action` buttons are
its actions, in order, and listener `i` is bound to action `i`. -/
def ToastNode.markupFree (t : ToastNode) : Bool :=
  t.icon.markupFree && noMarkup t.title && noMarkup t.message &&
    t.actions.all (fun a => noMarkup (orDefault a.text "Action"))

/-- Does calling, with no arguments, the value that the lookup
`toastConfig.sounds[key]` finds throw?  The three own tones catch their
errors; of the inherited members `__proto__` is an object, not a function,
and `__defineGetter__` and `__defineSetter__` reject a missing accessor. -/
def callThrows (key : String) : Bool :=
  key = "__proto__" || key = "__defineGetter__" || key = "__defineSetter__"

/-- Does the block `// Play sound` of `fire` throw?  A string `sound` is
looked up in `toastConfig.sounds` and the value found is called; `sound:
true` looks up `type`; what is not found falls back to the notification
tone. -/
def soundThrows (options : Options) (soundEnabled : Bool) : Bool :=
  soundEnabled &&
    match options.sound with
    | some (Sound.key k) => k ≠ "" && callThrows k
    | some (Sound.flag true) => callThrows (options.type.getD "info")
    | _ => false

/-- The state in which `fire` leaves the library when its sound block throws:
the container exists, the position has been applied, the counter has been
incremented and the toast has been appended with its listeners; the show and
auto-hide callbacks are not scheduled and no handle is returned. -/
def fireAborted (options : Options) (s : State) : State :=
  let s1 := initializeContainer s
  let s2 := applyPosition options s1
  let toastId := s2.toastCounter
  appendChild (mkToast options toastId) { s2 with toastCounter := s2.toastCounter + 1 }

/-- The function `fire` with its exception: `error` carries the state left
behind by the throw, `ok` the handle and state that `fire` returns. -/
def fireE (options : Options) (s : State) : Except State (Nat × State) :=
  if soundThrows options s.soundEnabled then Except.error (fireAborted options s)
  else Except.ok (fire options s)

/-- The method `ToastQueue.process` with the exception of `fire`: the throw
leaves `process` right after `this.currentCount++`, with `processing` still
true; nothing of lines 267-289 runs. -/
def processE (s : State) : Except State State :=
  let q := s.toastQueue
  if q.processing ∨ q.currentCount ≥ q.maxConcurrent then Except.ok s
  else
    match q.queue with
    | [] => Except.ok s
    | options :: rest =>
      let s1 := { s with toastQueue :=
        { q with processing := true, queue := rest, currentCount := q.currentCount + 1 } }
      match fireE options s1 with
      | Except.error s2 => Except.error s2
      | Except.ok _ => Except.ok (process s)

/-- The function `queue` (`ToastQueue.add`) with the exception of `fire`. -/
def queueE (options : Options) (s : State) : Except State State :=
  processE { s with
    toastQueue := { s.toastQueue with queue := s.toastQueue.queue ++ [options] }
    log := s.log ++ [Obs.enqueued options] }

/-- The state after a call, whether it returned or threw. -/
def stateOf (r : Except State State) : State :=
  match r with
  | Except.ok s => s
  | Except.error s => s

/-- A request whose `sound` names an inherited member of `toastConfig.sounds`
that is not a function. -/
def protoSound : Options := { sound := some (Sound.key "__proto__") }

/-- The library after `Toast.queue({sound: '__proto__'})` on the initial
state. -/
def afterThrow : State := stateOf (queueE protoSound init)

/-- The library after `Toast.queue({sound: '__proto__'})` and `Toast.queue({})`
on the initial state. -/
def afterThrowThenQueue : State := stateOf (queueE {} afterThrow)

/-- The function `confirm` with the exception of `fire`: a throw inside the
executor rejects the promise (`error`; a rejected promise is never resolved),
otherwise the number of the promise and the state are those of `confirm`. -/
def confirmE (title message : Option String) (options : ConfirmOptions) (s : State) :
    Except State (Nat × State) :=
  let p := s.promises.length
  let s1 := { s with promises := s.promises ++ [none] }
  match fireE (confirmOptions title message options p) s1 with
  | Except.error s2 => Except.error s2
  | Except.ok r => Except.ok (p, r.2)

/-! ## Predicates on states -/

/-- The part of the state the queue bookkeeping reads is the same in `t` as in `s`. -/
structure Frame (s t : State) : Prop where
  toastCounter : t.toastCounter = s.toastCounter
  ids : t.ids = s.ids
  toastQueue : t.toastQueue = s.toastQueue
  observers : t.observers = s.observers
  log : t.log = s.log

/-- What holds of every state reachable from `init`. -/
structure Inv (s : State) : Prop where
  ids_lt : ∀ h ∈ s.ids, h < s.toastCounter
  ids_nodup : s.ids.Nodup
  fired : firedHandles s.log = List.range s.toastCounter
  adm_lt : ∀ h ∈ admittedHandles s.log, h < s.toastCounter
  adm_nodup : (admittedHandles s.log).Nodup
  observers_eq : s.observers = (admittedHandles s.log).filter (fun h => decide (h ∈ s.ids))
  count_eq : s.toastQueue.currentCount = (s.observers.length : Int)
  not_processing : s.toastQueue.processing = false
  max_eq : s.toastQueue.maxConcurrent = 3
  count_le : s.toastQueue.currentCount ≤ 3
  fifo : admittedRequests s.log ++ s.toastQueue.queue = enqueuedRequests s.log

/-- The step from `s` to `t` admitted nothing and left the pending queue alone. -/
structure Quiet (s t : State) : Prop where
  queue : t.toastQueue.queue = s.toastQueue.queue
  handles : admittedHandles t.log = admittedHandles s.log
  requests : admittedRequests t.log = admittedRequests s.log

/-! ## Lemmas: what each function leaves alone -/

theorem modifyFirst_map {α β : Type} (p : α → Bool) (f : α → α) (g : α → β)
    (hg : ∀ x, g (f x) = g x) (l : List α) : (modifyFirst p f l).map g = l.map g := by
  induction l with
  | nil => rfl
  | cons x xs ih =>
    unfold modifyFirst
    split
    · simp [hg]
    · simp [ih]

section frame
variable (s : State)

@[simp] theorem initializeContainer_toastCounter :
    (initializeContainer s).toastCounter = s.toastCounter := by
  unfold initializeContainer; split <;> rfl
@[simp] theorem initializeContainer_currentPosition :
    (initializeContainer s).currentPosition = s.currentPosition := by
  unfold initializeContainer; split <;> rfl
@[simp] theorem initializeContainer_toastQueue :
    (initializeContainer s).toastQueue = s.toastQueue := by
  unfold initializeContainer; split <;> rfl
@[simp] theorem initializeContainer_observers :
    (initializeContainer s).observers = s.observers := by
  unfold initializeContainer; split <;> rfl
@[simp] theorem initializeContainer_timers :
    (initializeContainer s).timers = s.timers := by
  unfold initializeContainer; split <;> rfl
@[simp] theorem initializeContainer_promises :
    (initializeContainer s).promises = s.promises := by
  unfold initializeContainer; split <;> rfl
@[simp] theorem initializeContainer_log :
    (initializeContainer s).log = s.log := by
  unfold initializeContainer; split <;> rfl
@[simp] theorem initializeContainer_children :
    (initializeContainer s).children = s.children := by
  cases hc : s.container <;> simp [initializeContainer, State.children, hc]
theorem initializeContainer_isSome :
    (initializeContainer s).container.isSome = true := by
  unfold initializeContainer; split <;> simp [*]

variable (p : String)
@[simp] theorem updateContainerPosition_toastCounter :
    (updateContainerPosition p s).toastCounter = s.toastCounter := by
  unfold updateContainerPosition; split <;> rfl
@[simp] theorem updateContainerPosition_currentPosition :
    (updateContainerPosition p s).currentPosition = s.currentPosition := by
  unfold updateContainerPosition; split <;> rfl
@[simp] theorem updateContainerPosition_toastQueue :
    (updateContainerPosition p s).toastQueue = s.toastQueue := by
  unfold updateContainerPosition; split <;> rfl
@[simp] theorem updateContainerPosition_observers :
    (updateContainerPosition p s).observers = s.observers := by
  unfold updateContainerPosition; split <;> rfl
@[simp] theorem updateContainerPosition_timers :
    (updateContainerPosition p s).timers = s.timers := by
  unfold updateContainerPosition; split <;> rfl
@[simp] theorem updateContainerPosition_promises :
    (updateContainerPosition p s).promises = s.promises := by
  unfold updateContainerPosition; split <;> rfl
@[simp] theorem updateContainerPosition_log :
    (updateContainerPosition p s).log = s.log := by
  unfold updateContainerPosition; split <;> rfl
@[simp] theorem updateContainerPosition_children :
    (updateContainerPosition p s).children = s.children := by
  cases hc : s.container <;> simp [updateContainerPosition, State.children, hc]
@[simp] theorem updateContainerPosition_isSome :
    (updateContainerPosition p s).container.isSome = s.container.isSome := by
  unfold updateContainerPosition; split <;> simp [*]

variable (o : Options)
@[simp] theorem applyPosition_toastCounter :
    (applyPosition o s).toastCounter = s.toastCounter := by
  unfold applyPosition; simp only []; split <;> simp
@[simp] theorem applyPosition_toastQueue :
    (applyPosition o s).toastQueue = s.toastQueue := by
  unfold applyPosition; simp only []; split <;> simp
@[simp] theorem applyPosition_observers :
    (applyPosition o s).observers = s.observers := by
  unfold applyPosition; simp only []; split <;> simp
@[simp] theorem applyPosition_timers :
    (applyPosition o s).timers = s.timers := by
  unfold applyPosition; simp only []; split <;> simp
@[simp] theorem applyPosition_promises :
    (applyPosition o s).promises = s.promises := by
  unfold applyPosition; simp only []; split <;> simp
@[simp] theorem applyPosition_log :
    (applyPosition o s).log = s.log := by
  unfold applyPosition; simp only []; split <;> simp
@[simp] theorem applyPosition_children :
    (applyPosition o s).children = s.children := by
  unfold applyPosition; simp only []; split
  · rw [updateContainerPosition_children]; rfl
  · rfl
@[simp] theorem applyPosition_isSome :
    (applyPosition o s).container.isSome = s.container.isSome := by
  unfold applyPosition; simp only []; split <;> simp

variable (t : ToastNode)
@[simp] theorem appendChild_toastCounter : (appendChild t s).toastCounter = s.toastCounter := by
  unfold appendChild; split <;> rfl
@[simp] theorem appendChild_toastQueue : (appendChild t s).toastQueue = s.toastQueue := by
  unfold appendChild; split <;> rfl
@[simp] theorem appendChild_observers : (appendChild t s).observers = s.observers := by
  unfold appendChild; split <;> rfl
@[simp] theorem appendChild_timers : (appendChild t s).timers = s.timers := by
  unfold appendChild; split <;> rfl
@[simp] theorem appendChild_promises : (appendChild t s).promises = s.promises := by
  unfold appendChild; split <;> rfl
@[simp] theorem appendChild_log : (appendChild t s).log = s.log := by
  unfold appendChild; split <;> rfl
@[simp] theorem appendChild_currentPosition : (appendChild t s).currentPosition = s.currentPosition := by
  unfold appendChild; split <;> rfl
theorem appendChild_children (h : s.container.isSome = true) :
    (appendChild t s).children = s.children ++ [t] := by
  unfold appendChild State.children
  cases hc : s.container with
  | none => simp [hc] at h
  | some c => simp
@[simp] theorem appendChild_isSome : (appendChild t s).container.isSome = s.container.isSome := by
  unfold appendChild; split <;> simp [*]
end frame

theorem fire_fst (o : Options) (s : State) : (fire o s).1 = s.toastCounter := by
  simp [fire]
theorem fire_toastCounter (o : Options) (s : State) :
    (fire o s).2.toastCounter = s.toastCounter + 1 := by
  simp [fire]
theorem fire_toastQueue (o : Options) (s : State) : (fire o s).2.toastQueue = s.toastQueue := by
  simp [fire]
theorem fire_observers (o : Options) (s : State) : (fire o s).2.observers = s.observers := by
  simp [fire]
theorem fire_promises (o : Options) (s : State) : (fire o s).2.promises = s.promises := by
  simp [fire]
theorem fire_log (o : Options) (s : State) :
    (fire o s).2.log = s.log ++ [Obs.fired o s.toastCounter] := by
  simp [fire]
theorem fire_isSome (o : Options) (s : State) : (fire o s).2.container.isSome = true := by
  simp [fire, initializeContainer_isSome]
theorem children_congr {s t : State} (h : s.container = t.container) :
    s.children = t.children := by
  unfold State.children; rw [h]
theorem fire_children (o : Options) (s : State) :
    (fire o s).2.children = s.children ++ [mkToast o s.toastCounter] := by
  have h : (fire o s).2.children =
      (appendChild (mkToast o s.toastCounter)
        { applyPosition o (initializeContainer s) with toastCounter := s.toastCounter + 1 }).children := by
    apply children_congr; simp [fire]
  rw [h, appendChild_children]
  · show (applyPosition o (initializeContainer s)).children ++ _ = _
    simp
  · simp [initializeContainer_isSome]
theorem fire_ids (o : Options) (s : State) : (fire o s).2.ids = s.ids ++ [s.toastCounter] := by
  simp [State.ids, fire_children, mkToast]
theorem Frame.refl (s : State) : Frame s s := ⟨rfl, rfl, rfl, rfl, rfl⟩

theorem Frame.trans {s t u : State} (h1 : Frame s t) (h2 : Frame t u) : Frame s u :=
  ⟨h2.toastCounter.trans h1.toastCounter, h2.ids.trans h1.ids,
   h2.toastQueue.trans h1.toastQueue, h2.observers.trans h1.observers, h2.log.trans h1.log⟩

theorem modifyNode_frame (s : State) (toastId : Nat) (f : ToastNode → ToastNode)
    (hf : ∀ t, (f t).id = t.id) : Frame s (s.modifyNode toastId f) := by
  unfold State.modifyNode
  cases hc : s.container with
  | none => simp only []; exact Frame.refl s
  | some c =>
    refine ⟨rfl, ?_, rfl, rfl, rfl⟩
    simp [State.ids, State.children, hc, modifyFirst_map _ _ _ hf]

theorem modifyNode_promises (s : State) (toastId : Nat) (f : ToastNode → ToastNode) :
    (s.modifyNode toastId f).promises = s.promises := by
  unfold State.modifyNode; split <;> rfl

theorem modifyNode_timers (s : State) (toastId : Nat) (f : ToastNode → ToastNode) :
    (s.modifyNode toastId f).timers = s.timers := by
  unfold State.modifyNode; split <;> rfl

theorem initializeContainer_frame (s : State) : Frame s (initializeContainer s) :=
  ⟨by simp, by simp [State.ids], by simp, by simp, by simp⟩

theorem hide_frame (toastId : Nat) (s : State) : Frame s (hide toastId s) := by
  unfold hide
  split
  · have h := modifyNode_frame s toastId (fun t =>
      { t with classList := classListAdd "hide" (classListRemove "show" t.classList) })
      (fun _ => rfl)
    exact ⟨h.toastCounter, h.ids, h.toastQueue, h.observers, h.log⟩
  · exact Frame.refl s

theorem hide_promises (toastId : Nat) (s : State) : (hide toastId s).promises = s.promises := by
  unfold hide
  split
  · simp [modifyNode_promises]
  · rfl

theorem clear_frame (s : State) : Frame s (clear s) := ⟨rfl, rfl, rfl, rfl, rfl⟩

theorem batch_frame (l : List Options) (s : State) : Frame s (batch l s) :=
  ⟨rfl, rfl, rfl, rfl, rfl⟩

theorem setPosition_frame (p : String) (s : State) : Frame s (setPosition p s) := by
  unfold setPosition
  split
  · refine ⟨by simp, ?_, by simp, by simp, by simp⟩
    simp only [State.ids, updateContainerPosition_children]; rfl
  · exact Frame.refl s

theorem update_frame (toastId : Nat) (m : String) (s : State) : Frame s (update toastId m s) :=
  modifyNode_frame s toastId _ (fun _ => rfl)

theorem resolvePromise_frame (p : Nat) (b : Bool) (s : State) : Frame s (resolvePromise p b s) := by
  unfold resolvePromise
  split
  · exact ⟨rfl, rfl, rfl, rfl, rfl⟩
  · exact Frame.refl s

theorem runCallback_frame (cb : Callback) (s : State) : Frame s (runCallback cb s) := by
  cases cb with
  | resolve p b => exact resolvePromise_frame p b s
  | host tag => exact Frame.refl s
  | guarded f => exact Frame.refl s

theorem clickClose_frame (toastId : Nat) (s : State) : Frame s (clickClose toastId s) := by
  unfold clickClose
  split
  · split
    · exact hide_frame toastId s
    · exact Frame.refl s
  · exact Frame.refl s

theorem clickAction_frame (toastId index : Nat) (s : State) :
    Frame s (clickAction toastId index s) := by
  unfold clickAction
  split
  · split
    · have h1 : Frame s (match (‹Action›).onClick with
          | some cb => runCallback cb s
          | none => s) := by
        split
        · exact runCallback_frame _ s
        · exact Frame.refl s
      simp only []
      split
      · exact Frame.trans h1 (hide_frame toastId _)
      · exact h1
    · exact Frame.refl s
  · exact Frame.refl s


/-! ## Lemmas: the invariant -/

theorem firedHandles_append (l1 l2 : List Obs) :
    firedHandles (l1 ++ l2) = firedHandles l1 ++ firedHandles l2 := by
  induction l1 with
  | nil => rfl
  | cons x xs ih => cases x <;> simp [firedHandles, ih]

theorem enqueuedRequests_append (l1 l2 : List Obs) :
    enqueuedRequests (l1 ++ l2) = enqueuedRequests l1 ++ enqueuedRequests l2 := by
  induction l1 with
  | nil => rfl
  | cons x xs ih => cases x <;> simp [enqueuedRequests, ih]

theorem admittedRequests_append (l1 l2 : List Obs) :
    admittedRequests (l1 ++ l2) = admittedRequests l1 ++ admittedRequests l2 := by
  induction l1 with
  | nil => rfl
  | cons x xs ih => cases x <;> simp [admittedRequests, ih]

theorem admittedHandles_append (l1 l2 : List Obs) :
    admittedHandles (l1 ++ l2) = admittedHandles l1 ++ admittedHandles l2 := by
  induction l1 with
  | nil => rfl
  | cons x xs ih => cases x <;> simp [admittedHandles, ih]

theorem inv_init : Inv init := by
  refine ⟨?_, ?_, ?_, ?_, ?_, ?_, ?_, ?_, ?_, ?_, ?_⟩ <;> simp [init, State.ids, State.children, firedHandles, admittedHandles, admittedRequests, enqueuedRequests, ToastQueue.new]

theorem Inv.of_frame {s t : State} (hf : Frame s t) (h : Inv s) : Inv t := by
  refine ⟨?_, ?_, ?_, ?_, ?_, ?_, ?_, ?_, ?_, ?_, ?_⟩
  · rw [hf.ids, hf.toastCounter]; exact h.ids_lt
  · rw [hf.ids]; exact h.ids_nodup
  · rw [hf.log, hf.toastCounter]; exact h.fired
  · rw [hf.log, hf.toastCounter]; exact h.adm_lt
  · rw [hf.log]; exact h.adm_nodup
  · rw [hf.log, hf.ids, hf.observers]; exact h.observers_eq
  · rw [hf.toastQueue, hf.observers]; exact h.count_eq
  · rw [hf.toastQueue]; exact h.not_processing
  · rw [hf.toastQueue]; exact h.max_eq
  · rw [hf.toastQueue]; exact h.count_le
  · rw [hf.log, hf.toastQueue]; exact h.fifo

theorem filter_mem_append_fresh (adm ids : List Nat) (c : Nat) (hc : c ∉ adm) :
    adm.filter (fun h => decide (h ∈ ids ++ [c])) = adm.filter (fun h => decide (h ∈ ids)) := by
  apply List.filter_congr
  intro x hx
  have : x ≠ c := fun e => hc (e ▸ hx)
  simp [this]

theorem Inv.fire {s : State} (o : Options) (h : Inv s) : Inv (fire o s).2 := by
  have hfresh : s.toastCounter ∉ s.ids := fun hm => Nat.lt_irrefl _ (h.ids_lt _ hm)
  have hadm : s.toastCounter ∉ admittedHandles s.log := fun hm => Nat.lt_irrefl _ (h.adm_lt _ hm)
  refine ⟨?_, ?_, ?_, ?_, ?_, ?_, ?_, ?_, ?_, ?_, ?_⟩
  · rw [fire_ids, fire_toastCounter]
    intro x hx
    rcases List.mem_append.mp hx with hx | hx
    · exact Nat.lt_succ_of_lt (h.ids_lt x hx)
    · simp at hx; omega
  · rw [fire_ids]
    exact List.Nodup.append h.ids_nodup (List.nodup_singleton _) (by simpa using hfresh)
  · rw [fire_log, fire_toastCounter, firedHandles_append, h.fired, List.range_succ]
    rfl
  · rw [fire_log, fire_toastCounter, admittedHandles_append]
    intro x hx
    simp [admittedHandles] at hx
    exact Nat.lt_succ_of_lt (h.adm_lt x hx)
  · rw [fire_log, admittedHandles_append]
    simpa [admittedHandles] using h.adm_nodup
  · rw [fire_log, fire_ids, fire_observers, admittedHandles_append]
    simp only [admittedHandles, List.append_nil]
    rw [filter_mem_append_fresh _ _ _ hadm]
    exact h.observers_eq
  · rw [fire_toastQueue, fire_observers]; exact h.count_eq
  · rw [fire_toastQueue]; exact h.not_processing
  · rw [fire_toastQueue]; exact h.max_eq
  · rw [fire_toastQueue]; exact h.count_le
  · rw [fire_log, fire_toastQueue, admittedRequests_append, enqueuedRequests_append]
    simpa [admittedRequests, enqueuedRequests] using h.fifo

theorem map_id_eraseP (toastId : Nat) (l : List ToastNode) :
    (l.eraseP (fun t => decide (t.id = toastId))).map (fun t => t.id) =
      (l.map (fun t => t.id)).erase toastId := by
  induction l with
  | nil => rfl
  | cons x xs ih =>
    by_cases hx : x.id = toastId
    · simp [List.eraseP_cons, hx]
    · have hx2 : ¬ (x.id == toastId) = true := by simpa using hx
      simp [List.eraseP_cons, hx, List.erase_cons, hx2, ih]

theorem removeChild_of_not_mem (toastId : Nat) (s : State) (h : toastId ∉ s.ids) :
    removeChild toastId s = s := by
  unfold removeChild
  cases hc : s.container with
  | none => rfl
  | some c =>
    have : ¬ ∃ x ∈ c.children, x.id = toastId := by
      simpa [State.ids, State.children, hc] using h
    simp [this]

theorem removeChild_of_mem (toastId : Nat) (s : State) (h : toastId ∈ s.ids) :
    (removeChild toastId s).toastCounter = s.toastCounter ∧
    (removeChild toastId s).ids = s.ids.erase toastId ∧
    (removeChild toastId s).observers = s.observers.filter (fun t => t ≠ toastId) ∧
    (removeChild toastId s).toastQueue =
      { s.toastQueue with
        currentCount := s.toastQueue.currentCount - (s.observers.count toastId : Int) } ∧
    (removeChild toastId s).log = s.log ∧
    (removeChild toastId s).promises = s.promises := by
  unfold removeChild
  cases hc : s.container with
  | none => simp [State.ids, State.children, hc] at h
  | some c =>
    have : ∃ x ∈ c.children, x.id = toastId := by
      simpa [State.ids, State.children, hc] using h
    simp only [List.any_eq_true, decide_eq_true_eq, this, if_true]
    refine ⟨rfl, ?_, rfl, rfl, rfl, rfl⟩
    simp [deliver, State.ids, State.children, hc, map_id_eraseP]

theorem process_noop (s : State)
    (h : s.toastQueue.processing = true ∨ s.toastQueue.currentCount ≥ s.toastQueue.maxConcurrent ∨
      s.toastQueue.queue = []) : process s = s := by
  unfold process
  simp only []
  split
  · rfl
  · rename_i hn
    rcases h with h | h | h
    · exact absurd (Or.inl h) hn
    · exact absurd (Or.inr h) hn
    · rw [h]

theorem process_admits (s : State) (o : Options) (rest : List Options)
    (hp : s.toastQueue.processing = false)
    (hc : s.toastQueue.currentCount < s.toastQueue.maxConcurrent)
    (hq : s.toastQueue.queue = o :: rest) :
    (process s).toastCounter = s.toastCounter + 1 ∧
    (process s).ids = s.ids ++ [s.toastCounter] ∧
    (process s).observers = s.observers ++ [s.toastCounter] ∧
    (process s).toastQueue =
      { s.toastQueue with queue := rest, currentCount := s.toastQueue.currentCount + 1 } ∧
    (process s).log = s.log ++ [Obs.fired o s.toastCounter, Obs.admitted o s.toastCounter] ∧
    (process s).promises = s.promises := by
  have hn : ¬ (s.toastQueue.processing = true ∨
      s.toastQueue.currentCount ≥ s.toastQueue.maxConcurrent) := by
    rintro (h | h)
    · rw [hp] at h; cases h
    · omega
  unfold process
  simp only [hn, if_false, hq]
  have h1 := fire_fst o { s with toastQueue :=
    { s.toastQueue with processing := true, queue := rest,
                        currentCount := s.toastQueue.currentCount + 1 } }
  have h2 := fire_toastCounter o { s with toastQueue :=
    { s.toastQueue with processing := true, queue := rest,
                        currentCount := s.toastQueue.currentCount + 1 } }
  have h3 := fire_ids o { s with toastQueue :=
    { s.toastQueue with processing := true, queue := rest,
                        currentCount := s.toastQueue.currentCount + 1 } }
  have h4 := fire_observers o { s with toastQueue :=
    { s.toastQueue with processing := true, queue := rest,
                        currentCount := s.toastQueue.currentCount + 1 } }
  have h5 := fire_toastQueue o { s with toastQueue :=
    { s.toastQueue with processing := true, queue := rest,
                        currentCount := s.toastQueue.currentCount + 1 } }
  have h6 := fire_log o { s with toastQueue :=
    { s.toastQueue with processing := true, queue := rest,
                        currentCount := s.toastQueue.currentCount + 1 } }
  have h7 := fire_promises o { s with toastQueue :=
    { s.toastQueue with processing := true, queue := rest,
                        currentCount := s.toastQueue.currentCount + 1 } }
  have h8 := fire_isSome o { s with toastQueue :=
    { s.toastQueue with processing := true, queue := rest,
                        currentCount := s.toastQueue.currentCount + 1 } }
  generalize fire o { s with toastQueue :=
    { s.toastQueue with processing := true, queue := rest,
                        currentCount := s.toastQueue.currentCount + 1 } } = r at h1 h2 h3 h4 h5 h6 h7 h8 ⊢
  obtain ⟨r1, r2⟩ := r
  simp only at h1 h2 h3 h4 h5 h6 h7 h8 ⊢
  cases hcont : r2.container with
  | none => rw [hcont] at h8; cases h8
  | some c =>
    simp only []
    refine ⟨h2, ?_, ?_, ?_, ?_, h7⟩
    · have e : r2.ids = c.children.map (fun t => t.id) := by
        simp [State.ids, State.children, hcont]
      have h3b : r2.ids = s.ids ++ [s.toastCounter] := h3
      rw [← h3b, e]; simp [State.ids, State.children]
    · simp [h4, h1]
    · rw [h5, hp]
    · simp [h6, h1]

theorem Inv.removeChild {s : State} (toastId : Nat) (h : Inv s) : Inv (removeChild toastId s) := by
  by_cases hm : toastId ∈ s.ids
  · obtain ⟨e1, e2, e3, e4, e5, _⟩ := removeChild_of_mem toastId s hm
    have hsub : ∀ x, x ∈ s.ids.erase toastId → x ∈ s.ids := fun x hx => List.mem_of_mem_erase hx
    have hlen : ((s.observers.filter (fun t => t ≠ toastId)).length : Int) =
        (s.observers.length : Int) - (s.observers.count toastId : Int) := by
      have := List.length_eq_countP_add_countP (fun t => decide (t = toastId)) s.observers
      have e : (s.observers.filter (fun t => t ≠ toastId)).length =
          s.observers.countP (fun t => ¬ decide (t = toastId) = true) := by
        rw [List.countP_eq_length_filter]; congr 1; apply List.filter_congr; intro x _; simp
      have e' : s.observers.count toastId = s.observers.countP (fun t => decide (t = toastId)) := by
        rw [List.count]; congr 1
      omega
    refine ⟨?_, ?_, ?_, ?_, ?_, ?_, ?_, ?_, ?_, ?_, ?_⟩
    · rw [e1, e2]; exact fun x hx => h.ids_lt x (hsub x hx)
    · rw [e2]; exact h.ids_nodup.erase _
    · rw [e5, e1]; exact h.fired
    · rw [e5, e1]; exact h.adm_lt
    · rw [e5]; exact h.adm_nodup
    · rw [e3, e5, e2, h.observers_eq, List.filter_filter]
      apply List.filter_congr
      intro x _
      simp [h.ids_nodup.mem_erase_iff]
    · rw [e4, e3, hlen]; simp [h.count_eq]
    · rw [e4]; exact h.not_processing
    · rw [e4]; exact h.max_eq
    · rw [e4]
      have := h.count_le
      show s.toastQueue.currentCount - _ ≤ 3
      omega
    · rw [e5, e4]; exact h.fifo
  · rw [removeChild_of_not_mem toastId s hm]; exact h

theorem Inv.process {s : State} (h : Inv s) : Inv (process s) := by
  by_cases hc : s.toastQueue.currentCount < s.toastQueue.maxConcurrent
  · cases hq : s.toastQueue.queue with
    | nil => rw [process_noop s (Or.inr (Or.inr hq))]; exact h
    | cons o rest =>
      obtain ⟨e1, e2, e3, e4, e5, _⟩ := process_admits s o rest h.not_processing hc hq
      have hfresh : s.toastCounter ∉ s.ids := fun hm => Nat.lt_irrefl _ (h.ids_lt _ hm)
      have hadm : s.toastCounter ∉ admittedHandles s.log :=
        fun hm => Nat.lt_irrefl _ (h.adm_lt _ hm)
      have hmax := h.max_eq
      refine ⟨?_, ?_, ?_, ?_, ?_, ?_, ?_, ?_, ?_, ?_, ?_⟩
      · rw [e1, e2]
        intro x hx
        rcases List.mem_append.mp hx with hx | hx
        · exact Nat.lt_succ_of_lt (h.ids_lt x hx)
        · simp at hx; omega
      · rw [e2]
        exact List.Nodup.append h.ids_nodup (List.nodup_singleton _) (by simpa using hfresh)
      · rw [e5, e1, firedHandles_append, h.fired, List.range_succ]; rfl
      · rw [e5, e1, admittedHandles_append]
        intro x hx
        simp [admittedHandles] at hx
        rcases hx with hx | hx
        · exact Nat.lt_succ_of_lt (h.adm_lt x hx)
        · omega
      · rw [e5, admittedHandles_append]
        simp only [admittedHandles]
        exact List.Nodup.append h.adm_nodup (List.nodup_singleton _) (by simpa using hadm)
      · rw [e3, e5, e2, admittedHandles_append]
        simp only [admittedHandles, List.filter_append]
        rw [filter_mem_append_fresh _ _ _ hadm, ← h.observers_eq]
        simp
      · rw [e4, e3]; simp [h.count_eq]
      · rw [e4]; exact h.not_processing
      · rw [e4]; exact h.max_eq
      · rw [e4]
        show s.toastQueue.currentCount + 1 ≤ 3
        omega
      · rw [e5, e4, admittedRequests_append, enqueuedRequests_append]
        simp only [admittedRequests, enqueuedRequests, List.append_nil]
        rw [← h.fifo, hq]; simp
  · rw [process_noop s (Or.inr (Or.inl (by omega)))]; exact h

theorem Inv.enqueue {s : State} (o : Options) (h : Inv s) :
    Inv { s with
      toastQueue := { s.toastQueue with queue := s.toastQueue.queue ++ [o] }
      log := s.log ++ [Obs.enqueued o] } := by
  refine ⟨h.ids_lt, h.ids_nodup, ?_, ?_, ?_, ?_, h.count_eq, h.not_processing, h.max_eq,
    h.count_le, ?_⟩
  · show firedHandles (s.log ++ _) = _
    rw [firedHandles_append]; simpa [firedHandles] using h.fired
  · show ∀ x ∈ admittedHandles (s.log ++ _), _
    rw [admittedHandles_append]; simpa [admittedHandles] using h.adm_lt
  · show (admittedHandles (s.log ++ _)).Nodup
    rw [admittedHandles_append]; simpa [admittedHandles] using h.adm_nodup
  · show s.observers = (admittedHandles (s.log ++ _)).filter _
    rw [admittedHandles_append]; simpa [admittedHandles] using h.observers_eq
  · show admittedRequests (s.log ++ _) ++ (s.toastQueue.queue ++ [o]) = enqueuedRequests (s.log ++ _)
    rw [admittedRequests_append, enqueuedRequests_append]
    simp only [admittedRequests, enqueuedRequests, List.append_nil]
    rw [← h.fifo, List.append_assoc]

theorem Inv.runTask {s : State} (t : Task) (h : Inv s) : Inv (runTask t s) := by
  cases t with
  | addShow toastId => exact h.of_frame (modifyNode_frame s toastId _ (fun _ => rfl))
  | hide toastId => exact h.of_frame (hide_frame toastId s)
  | remove toastId => exact h.removeChild toastId
  | process => exact h.process
  | settle =>
    have h1 : Inv { s with toastQueue := { s.toastQueue with processing := false } } :=
      ⟨h.ids_lt, h.ids_nodup, h.fired, h.adm_lt, h.adm_nodup, h.observers_eq, h.count_eq, rfl,
        h.max_eq, h.count_le, h.fifo⟩
    exact h1.process
  | fire o => exact h.fire o

theorem Inv.step {s : State} (e : Event) (h : Inv s) : Inv (step e s) := by
  cases e with
  | domContentLoaded => exact h.of_frame (initializeContainer_frame s)
  | fire o => exact h.fire o
  | hide toastId => exact h.of_frame (hide_frame toastId s)
  | clear => exact h.of_frame (clear_frame s)
  | setPosition p => exact h.of_frame (setPosition_frame p s)
  | toggleSound => exact @Inv.of_frame s _ ⟨rfl, rfl, rfl, rfl, rfl⟩ h
  | queue o => exact (h.enqueue o).process
  | batch toastArray => exact h.of_frame (batch_frame toastArray s)
  | success t m o => exact h.fire _
  | error t m o => exact h.fire _
  | warning t m o => exact h.fire _
  | info t m o => exact h.fire _
  | progress t m o => exact h.fire _
  | update toastId newMessage => exact h.of_frame (update_frame toastId newMessage s)
  | confirm t m o =>
    have h1 : Inv { s with promises := s.promises ++ [none] } :=
      @Inv.of_frame s _ ⟨rfl, rfl, rfl, rfl, rfl⟩ h
    exact h1.fire _
  | clickClose toastId => exact h.of_frame (clickClose_frame toastId s)
  | clickAction toastId index => exact h.of_frame (clickAction_frame toastId index s)
  | timer i =>
    show Inv (match s.timers[i]? with
      | some x => AdvancedToast.runTask x.2 { s with timers := s.timers.eraseIdx i }
      | none => s)
    split
    · have h1 : Inv { s with timers := s.timers.eraseIdx i } :=
        @Inv.of_frame s _ ⟨rfl, rfl, rfl, rfl, rfl⟩ h
      exact h1.runTask _
    · exact h
  | detach toastId => exact h.removeChild toastId

theorem run_append (es fs : List Event) (s : State) :
    run (es ++ fs) s = run fs (run es s) := by
  simp [run, List.foldl_append]

theorem run_cons (e : Event) (es : List Event) (s : State) :
    run (e :: es) s = run es (step e s) := rfl

theorem Inv.run {s : State} (es : List Event) (h : Inv s) : Inv (run es s) := by
  induction es generalizing s with
  | nil => exact h
  | cons e es ih => exact ih (h.step e)

theorem modifyNode_log (s : State) (toastId : Nat) (f : ToastNode → ToastNode) :
    (s.modifyNode toastId f).log = s.log := by
  unfold State.modifyNode; split <;> rfl

theorem process_log (s : State) :
    (process s).log = s.log ∨
      ∃ o h, (process s).log = s.log ++ [Obs.fired o h, Obs.admitted o h] := by
  by_cases hn : s.toastQueue.processing = true ∨
      s.toastQueue.currentCount ≥ s.toastQueue.maxConcurrent
  · left
    rw [process_noop s (by tauto)]
  · cases hq : s.toastQueue.queue with
    | nil => left; rw [process_noop s (Or.inr (Or.inr hq))]
    | cons o rest =>
      right
      have hp : s.toastQueue.processing = false := by
        cases hb : s.toastQueue.processing
        · rfl
        · exact absurd (Or.inl hb) hn
      have hc : s.toastQueue.currentCount < s.toastQueue.maxConcurrent := by
        by_contra hlt
        exact hn (Or.inr (by omega))
      exact ⟨o, s.toastCounter, (process_admits s o rest hp hc hq).2.2.2.2.1⟩

theorem process_enqueued (s : State) :
    enqueuedRequests (process s).log = enqueuedRequests s.log := by
  rcases process_log s with h | ⟨o, c, h⟩
  · rw [h]
  · rw [h, enqueuedRequests_append]; simp [enqueuedRequests]

theorem removeChild_log (toastId : Nat) (s : State) : (removeChild toastId s).log = s.log := by
  by_cases hm : toastId ∈ s.ids
  · exact (removeChild_of_mem toastId s hm).2.2.2.2.1
  · rw [removeChild_of_not_mem toastId s hm]

theorem fire_enqueued (o : Options) (s : State) :
    enqueuedRequests (fire o s).2.log = enqueuedRequests s.log := by
  rw [fire_log, enqueuedRequests_append]; simp [enqueuedRequests]

theorem runTask_enqueued (t : Task) (s : State) :
    enqueuedRequests (runTask t s).log = enqueuedRequests s.log := by
  cases t with
  | addShow toastId => exact congrArg _ (modifyNode_log s toastId _)
  | hide toastId => exact congrArg _ (hide_frame toastId s).log
  | remove toastId => exact congrArg _ (removeChild_log toastId s)
  | process => exact process_enqueued s
  | settle => exact process_enqueued _
  | fire o => exact fire_enqueued o s

theorem step_enqueued (e : Event) (s : State) :
    enqueuedRequests (step e s).log = enqueuedRequests s.log ++ queuedBy [e] := by
  cases e with
  | domContentLoaded => simp [queuedBy, step]
  | fire o => simpa [queuedBy] using fire_enqueued o s
  | hide toastId => simpa [queuedBy] using congrArg enqueuedRequests (hide_frame toastId s).log
  | clear => simp [queuedBy, step, clear]
  | setPosition p =>
    simpa [queuedBy] using congrArg enqueuedRequests (setPosition_frame p s).log
  | toggleSound => simp [queuedBy, step, toggleSound]
  | queue o =>
    show enqueuedRequests (process _).log = _
    rw [process_enqueued]
    show enqueuedRequests (s.log ++ _) = _
    rw [enqueuedRequests_append]; rfl
  | batch toastArray => simp [queuedBy, step, batch]
  | success t m o => simpa [queuedBy] using fire_enqueued _ s
  | error t m o => simpa [queuedBy] using fire_enqueued _ s
  | warning t m o => simpa [queuedBy] using fire_enqueued _ s
  | info t m o => simpa [queuedBy] using fire_enqueued _ s
  | progress t m o => simpa [queuedBy] using fire_enqueued _ s
  | update toastId newMessage =>
    simpa [queuedBy] using congrArg enqueuedRequests (update_frame toastId newMessage s).log
  | confirm t m o =>
    simpa [queuedBy] using fire_enqueued _ { s with promises := s.promises ++ [none] }
  | clickClose toastId =>
    simpa [queuedBy] using congrArg enqueuedRequests (clickClose_frame toastId s).log
  | clickAction toastId index =>
    simpa [queuedBy] using congrArg enqueuedRequests (clickAction_frame toastId index s).log
  | timer i =>
    show enqueuedRequests (match s.timers[i]? with
      | some x => runTask x.2 { s with timers := s.timers.eraseIdx i }
      | none => s).log = _
    split
    · simpa [queuedBy] using runTask_enqueued _ { s with timers := s.timers.eraseIdx i }
    · simp [queuedBy]
  | detach toastId => simpa [queuedBy] using congrArg enqueuedRequests (removeChild_log toastId s)

theorem queuedBy_cons (e : Event) (es : List Event) :
    queuedBy (e :: es) = queuedBy [e] ++ queuedBy es := by
  cases e <;> simp [queuedBy]

theorem run_enqueued (es : List Event) (s : State) :
    enqueuedRequests (run es s).log = enqueuedRequests s.log ++ queuedBy es := by
  induction es generalizing s with
  | nil => simp [run, queuedBy]
  | cons e es ih =>
    rw [run_cons, ih, step_enqueued, List.append_assoc, ← queuedBy_cons]


theorem add_admits (s : State) (a : Options) (hI : Inv s)
    (hq : s.toastQueue.queue = []) (hc : s.toastQueue.currentCount < 3) :
    (add a s).toastQueue.queue = [] ∧
    (add a s).toastQueue.currentCount = s.toastQueue.currentCount + 1 ∧
    (add a s).toastCounter = s.toastCounter + 1 ∧
    (add a s).ids = s.ids ++ [s.toastCounter] ∧
    admittedHandles (add a s).log = admittedHandles s.log ++ [s.toastCounter] := by
  have h := process_admits
    { s with
      toastQueue := { s.toastQueue with queue := s.toastQueue.queue ++ [a] }
      log := s.log ++ [Obs.enqueued a] } a [] hI.not_processing
    (by show s.toastQueue.currentCount < s.toastQueue.maxConcurrent; rw [hI.max_eq]; exact hc)
    (by show s.toastQueue.queue ++ [a] = [a]; rw [hq]; rfl)
  obtain ⟨e1, e2, _, e4, e5, _⟩ := h
  unfold add
  refine ⟨by rw [e4], by rw [e4], e1, e2, ?_⟩
  rw [e5, admittedHandles_append, admittedHandles_append]
  simp [admittedHandles]

theorem add_full (s : State) (a : Options)
    (hc : s.toastQueue.currentCount ≥ s.toastQueue.maxConcurrent) :
    (add a s).toastQueue.queue = s.toastQueue.queue ++ [a] ∧
    (add a s).toastQueue.currentCount = s.toastQueue.currentCount ∧
    (add a s).toastCounter = s.toastCounter ∧
    (add a s).ids = s.ids ∧
    admittedHandles (add a s).log = admittedHandles s.log := by
  have key : add a s =
      { s with
        toastQueue := { s.toastQueue with queue := s.toastQueue.queue ++ [a] }
        log := s.log ++ [Obs.enqueued a] } :=
    process_noop _ (Or.inr (Or.inl hc))
  rw [key]
  refine ⟨rfl, rfl, rfl, rfl, ?_⟩
  show admittedHandles (s.log ++ _) = _
  rw [admittedHandles_append]; simp [admittedHandles]

theorem queuedBy_map_queue (os : List Options) : queuedBy (os.map Event.queue) = os := by
  induction os with
  | nil => rfl
  | cons o os ih => simp [queuedBy, ih]

theorem quiet_of_frame {s t : State} (h : Frame s t) : Quiet s t :=
  ⟨by rw [h.toastQueue], by rw [h.log], by rw [h.log]⟩

theorem quiet_fire (o : Options) (s : State) : Quiet s (fire o s).2 := by
  refine ⟨by rw [fire_toastQueue], ?_, ?_⟩
  · rw [fire_log, admittedHandles_append]; simp [admittedHandles]
  · rw [fire_log, admittedRequests_append]; simp [admittedRequests]

theorem quiet_removeChild (toastId : Nat) (s : State) : Quiet s (removeChild toastId s) := by
  by_cases hm : toastId ∈ s.ids
  · obtain ⟨_, _, _, e4, e5, _⟩ := removeChild_of_mem toastId s hm
    exact ⟨by rw [e4], by rw [e5], by rw [e5]⟩
  · rw [removeChild_of_not_mem toastId s hm]; exact ⟨rfl, rfl, rfl⟩

theorem quiet_runTask (t : Task) (s : State)
    (hc : s.toastQueue.currentCount ≥ s.toastQueue.maxConcurrent) : Quiet s (runTask t s) := by
  cases t with
  | addShow toastId => exact quiet_of_frame (modifyNode_frame s toastId _ (fun _ => rfl))
  | hide toastId => exact quiet_of_frame (hide_frame toastId s)
  | remove toastId => exact quiet_removeChild toastId s
  | process =>
    show Quiet s (process s)
    rw [process_noop s (Or.inr (Or.inl hc))]; exact ⟨rfl, rfl, rfl⟩
  | settle =>
    have key : AdvancedToast.runTask Task.settle s =
        { s with toastQueue := { s.toastQueue with processing := false } } :=
      process_noop _ (Or.inr (Or.inl hc))
    rw [key]; exact ⟨rfl, rfl, rfl⟩
  | fire o => exact quiet_fire o s

theorem step_full (e : Event) (s : State)
    (hc : s.toastQueue.currentCount ≥ s.toastQueue.maxConcurrent) :
    (step e s).toastQueue.queue = s.toastQueue.queue ++ queuedBy [e] ∧
    admittedHandles (step e s).log = admittedHandles s.log ∧
    admittedRequests (step e s).log = admittedRequests s.log := by
  have quiet : ∀ t, Quiet s t → queuedBy [e] = [] →
      t.toastQueue.queue = s.toastQueue.queue ++ queuedBy [e] ∧
      admittedHandles t.log = admittedHandles s.log ∧
      admittedRequests t.log = admittedRequests s.log := by
    intro t h hq
    rw [hq, List.append_nil]; exact ⟨h.queue, h.handles, h.requests⟩
  cases e with
  | domContentLoaded => exact quiet _ (quiet_of_frame (initializeContainer_frame s)) rfl
  | fire o => exact quiet _ (quiet_fire o s) rfl
  | hide toastId => exact quiet _ (quiet_of_frame (hide_frame toastId s)) rfl
  | clear => exact quiet _ (quiet_of_frame (clear_frame s)) rfl
  | setPosition p => exact quiet _ (quiet_of_frame (setPosition_frame p s)) rfl
  | toggleSound => exact quiet _ ⟨rfl, rfl, rfl⟩ rfl
  | queue o =>
    obtain ⟨e1, _, _, _, e5⟩ := add_full s o hc
    refine ⟨e1, e5, ?_⟩
    have key : add o s =
        { s with
          toastQueue := { s.toastQueue with queue := s.toastQueue.queue ++ [o] }
          log := s.log ++ [Obs.enqueued o] } :=
      process_noop _ (Or.inr (Or.inl hc))
    show admittedRequests (add o s).log = _
    rw [key]
    show admittedRequests (s.log ++ _) = _
    rw [admittedRequests_append]; simp [admittedRequests]
  | batch toastArray => exact quiet _ (quiet_of_frame (batch_frame toastArray s)) rfl
  | success t m o => exact quiet _ (quiet_fire _ s) rfl
  | error t m o => exact quiet _ (quiet_fire _ s) rfl
  | warning t m o => exact quiet _ (quiet_fire _ s) rfl
  | info t m o => exact quiet _ (quiet_fire _ s) rfl
  | progress t m o => exact quiet _ (quiet_fire _ s) rfl
  | update toastId newMessage =>
    exact quiet _ (quiet_of_frame (update_frame toastId newMessage s)) rfl
  | confirm t m o =>
    have q := quiet_fire (confirmOptions t m o s.promises.length)
      { s with promises := s.promises ++ [none] }
    exact quiet _ ⟨q.queue, q.handles, q.requests⟩ rfl
  | clickClose toastId => exact quiet _ (quiet_of_frame (clickClose_frame toastId s)) rfl
  | clickAction toastId index =>
    exact quiet _ (quiet_of_frame (clickAction_frame toastId index s)) rfl
  | timer i =>
    apply quiet _ _ rfl
    show Quiet s (match s.timers[i]? with
      | some x => runTask x.2 { s with timers := s.timers.eraseIdx i }
      | none => s)
    split
    · have q := quiet_runTask (‹Int × Task›).2 { s with timers := s.timers.eraseIdx i } hc
      exact ⟨q.queue, q.handles, q.requests⟩
    · exact ⟨rfl, rfl, rfl⟩
  | detach toastId => exact quiet _ (quiet_removeChild toastId s) rfl

theorem Inv.full_of_alive {s : State} (hI : Inv s)
    (hlen : (admittedHandles s.log).length = 3)
    (halive : ∀ h ∈ admittedHandles s.log, h ∈ s.ids) :
    s.toastQueue.currentCount ≥ s.toastQueue.maxConcurrent := by
  have e : s.observers = admittedHandles s.log := by
    rw [hI.observers_eq]
    apply List.filter_eq_self.mpr
    intro x hx
    simpa using halive x hx
  rw [hI.max_eq, hI.count_eq, e, hlen]; norm_num

theorem stays_pending (A : List Nat) (hlen : A.length = 3) (es : List Event) :
    ∀ s : State, Inv s → admittedHandles s.log = A → (∀ h ∈ A, h ∈ s.ids) →
      aliveThroughout A es s = true →
      (run es s).toastQueue.queue = s.toastQueue.queue ++ queuedBy es ∧
      admittedRequests (run es s).log = admittedRequests s.log := by
  induction es with
  | nil => intro s _ _ _ _; simp [run, queuedBy]
  | cons e es ih =>
    intro s hI hA halive hthrough
    have hfull := hI.full_of_alive (by rw [hA]; exact hlen) (by rw [hA]; exact halive)
    obtain ⟨e1, e2, e3⟩ := step_full e s hfull
    simp only [aliveThroughout, Bool.and_eq_true, List.all_eq_true, decide_eq_true_eq] at hthrough
    obtain ⟨ih1, ih2⟩ := ih (step e s) (hI.step e) (by rw [e2, hA]) hthrough.1 hthrough.2
    rw [run_cons, ih1, ih2, e1, e3, List.append_assoc, ← queuedBy_cons]
    exact ⟨rfl, rfl⟩

theorem process_schedules (s : State) (o : Options) (rest : List Options)
    (hp : s.toastQueue.processing = false)
    (hc : s.toastQueue.currentCount < s.toastQueue.maxConcurrent)
    (hq : s.toastQueue.queue = o :: rest) :
    ((200 : Int), Task.process) ∈ (process s).timers := by
  have hn : ¬ (s.toastQueue.processing = true ∨
      s.toastQueue.currentCount ≥ s.toastQueue.maxConcurrent) := by
    rintro (h | h)
    · rw [hp] at h; cases h
    · omega
  unfold process
  simp only [hn, if_false, hq]
  split <;> simp

theorem process_one (s : State) (hp : s.toastQueue.processing = false) :
    admittedRequests (process s).log =
      admittedRequests s.log ++ s.toastQueue.queue.take (min 1 (admissible s)) ∧
    (process s).toastQueue.queue = s.toastQueue.queue.drop (min 1 (admissible s)) ∧
    (process s).toastQueue.currentCount =
      s.toastQueue.currentCount + (min 1 (admissible s) : Nat) ∧
    (process s).toastQueue.maxConcurrent = s.toastQueue.maxConcurrent ∧
    (process s).toastQueue.processing = false ∧
    (0 < admissible s → ((200 : Int), Task.process) ∈ (process s).timers) := by
  by_cases hc : s.toastQueue.currentCount < s.toastQueue.maxConcurrent
  · cases hq : s.toastQueue.queue with
    | nil =>
      have ha : admissible s = 0 := by simp [admissible, hq]
      rw [process_noop s (Or.inr (Or.inr hq)), ha, hq]
      simp [hp]
    | cons o rest =>
      have ha : min 1 (admissible s) = 1 := by
        simp only [admissible, hq, List.length_cons]; omega
      obtain ⟨_, _, _, e4, e5, _⟩ := process_admits s o rest hp hc hq
      rw [ha, e4, e5, admittedRequests_append]
      refine ⟨by simp [admittedRequests], by simp, by simp, rfl, hp, ?_⟩
      intro _
      exact process_schedules s o rest hp hc hq
  · have ha : admissible s = 0 := by simp only [admissible]; omega
    rw [process_noop s (Or.inr (Or.inl (by omega))), ha]
    simp [hp]

theorem admissible_process (s : State) (hp : s.toastQueue.processing = false) :
    admissible (process s) = admissible s - min 1 (admissible s) := by
  obtain ⟨_, e2, e3, e4, _, _⟩ := process_one s hp
  have key : ∀ (M C : Int) (n : Nat), (M - (C + (n : Int))).toNat = (M - C).toNat - n := by
    intro M C n; omega
  have hunf : admissible (process s) =
      min (process s).toastQueue.queue.length
        ((process s).toastQueue.maxConcurrent - (process s).toastQueue.currentCount).toNat := rfl
  rw [hunf, e2, e3, e4, List.length_drop, key]
  generalize min 1 (admissible s) = n
  unfold admissible
  omega

theorem process_iterate (k : Nat) :
    ∀ s : State, s.toastQueue.processing = false →
      admittedRequests (process^[k] s).log =
        admittedRequests s.log ++ s.toastQueue.queue.take (min k (admissible s)) ∧
      (process^[k] s).toastQueue.queue = s.toastQueue.queue.drop (min k (admissible s)) ∧
      (process^[k] s).toastQueue.currentCount =
        s.toastQueue.currentCount + (min k (admissible s) : Nat) ∧
      (process^[k] s).toastQueue.maxConcurrent = s.toastQueue.maxConcurrent := by
  induction k with
  | zero => intro s _; simp
  | succ k ih =>
    intro s hp
    obtain ⟨e1, e2, e3, e4, e5, _⟩ := process_one s hp
    obtain ⟨i1, i2, i3, i4⟩ := ih (process s) e5
    have ha := admissible_process s hp
    have hsum : min (k + 1) (admissible s) =
        min 1 (admissible s) + min k (admissible s - min 1 (admissible s)) := by omega
    rw [Function.iterate_succ_apply, i1, i2, i3, i4, e1, e2, e3, e4, ha, hsum]
    refine ⟨?_, ?_, ?_, rfl⟩
    · rw [List.append_assoc, List.take_add]
    · rw [List.drop_drop, Nat.add_comm]
    · push_cast; ring

theorem find_modifyFirst {α : Type} (p : α → Bool) (f : α → α) (hp : ∀ x, p (f x) = p x)
    (l : List α) : (modifyFirst p f l).find? p = (l.find? p).map f := by
  induction l with
  | nil => rfl
  | cons x xs ih =>
    unfold modifyFirst
    by_cases hx : p x = true
    · simp [hx, hp]
    · simp [hx, ih]

theorem eraseP_modifyFirst {α : Type} (p : α → Bool) (f : α → α) (hp : ∀ x, p (f x) = p x)
    (l : List α) : (modifyFirst p f l).eraseP p = l.eraseP p := by
  induction l with
  | nil => rfl
  | cons x xs ih =>
    unfold modifyFirst
    by_cases hx : p x = true
    · simp [hx, hp, List.eraseP_cons]
    · simp [hx, ih, List.eraseP_cons]

theorem any_modifyFirst {α : Type} (p : α → Bool) (f : α → α) (hp : ∀ x, p (f x) = p x)
    (l : List α) : (modifyFirst p f l).any p = l.any p := by
  induction l with
  | nil => rfl
  | cons x xs ih =>
    unfold modifyFirst
    by_cases hx : p x = true
    · simp [hx, hp]
    · simp [hx, ih]

theorem modifyFirst_of_not_any {α : Type} (p : α → Bool) (f : α → α) (l : List α)
    (h : l.any p = false) : modifyFirst p f l = l := by
  induction l with
  | nil => rfl
  | cons x xs ih =>
    simp only [List.any_cons, Bool.or_eq_false_iff] at h
    unfold modifyFirst
    simp [h.1, ih h.2]

theorem find_eq_none_of_not_mem (toastId : Nat) (s : State) (h : toastId ∉ s.ids) :
    s.getElementById toastId = none := by
  unfold State.getElementById
  rw [List.find?_eq_none]
  intro t ht
  simp only [decide_eq_true_eq]
  intro e
  exact h (List.mem_map.mpr ⟨t, ht, e⟩)

theorem hide_of_not_mem (toastId : Nat) (s : State) (h : toastId ∉ s.ids) :
    hide toastId s = s := by
  unfold hide
  rw [find_eq_none_of_not_mem toastId s h]

theorem find_isSome_of_mem (toastId : Nat) (s : State) (h : toastId ∈ s.ids) :
    ∃ t, s.getElementById toastId = some t := by
  unfold State.getElementById
  cases hf : s.children.find? (fun t => decide (t.id = toastId)) with
  | some t => exact ⟨t, rfl⟩
  | none =>
    rw [List.find?_eq_none] at hf
    obtain ⟨t, ht, e⟩ := List.mem_map.mp h
    exact absurd (by simpa using e) (hf t ht)

theorem withTimers_self (s : State) : s.withTimers s.timers = s := rfl

theorem withTimers_ids (s : State) (T : List (Int × Task)) : (s.withTimers T).ids = s.ids := rfl

theorem hide_of_mem (toastId : Nat) (s : State) (h : toastId ∈ s.ids) :
    hide toastId s =
      (s.modifyNode toastId hideClasses).withTimers
        (s.timers ++ [((400 : Int), Task.remove toastId)]) := by
  obtain ⟨t, ht⟩ := find_isSome_of_mem toastId s h
  unfold hide
  rw [ht]
  simp only [State.withTimers, modifyNode_timers]
  rfl

theorem removeChild_modifyNode (toastId : Nat) (s : State) (f : ToastNode → ToastNode)
    (hf : ∀ t, (f t).id = t.id) (T : List (Int × Task)) :
    removeChild toastId ((s.modifyNode toastId f).withTimers T) =
      removeChild toastId (s.withTimers T) := by
  cases hc : s.container with
  | none => simp [State.modifyNode, hc]
  | some c =>
    have hp : ∀ x : ToastNode, (fun t : ToastNode => decide (t.id = toastId)) (f x) =
        (fun t : ToastNode => decide (t.id = toastId)) x := by
      intro x; simp [hf]
    have h1 := eraseP_modifyFirst (fun t : ToastNode => decide (t.id = toastId)) f hp c.children
    have h2 := any_modifyFirst (fun t : ToastNode => decide (t.id = toastId)) f hp c.children
    simp only [removeChild, State.modifyNode, State.withTimers, hc, h1, h2]
    split
    · rfl
    · rename_i hany
      rw [modifyFirst_of_not_any _ f c.children (by simpa using hany)]

theorem removeChild_withTimers (toastId : Nat) (s : State) (T : List (Int × Task))
    (h : toastId ∈ s.ids) :
    removeChild toastId (s.withTimers T) =
      (removeChild toastId s).withTimers
        (T ++ List.replicate (s.observers.count toastId) ((100 : Int), Task.settle)) := by
  unfold removeChild State.withTimers
  cases hc : s.container with
  | none => simp [State.ids, State.children, hc] at h
  | some c =>
    have : ∃ x ∈ c.children, x.id = toastId := by
      simpa [State.ids, State.children, hc] using h
    simp only [List.any_eq_true, decide_eq_true_eq, this, if_true]
    rfl

theorem removeChild_timers (toastId : Nat) (s : State) (h : toastId ∈ s.ids) :
    (removeChild toastId s).timers =
      s.timers ++ List.replicate (s.observers.count toastId) ((100 : Int), Task.settle) :=
  congrArg State.timers (removeChild_withTimers toastId s s.timers h)

theorem getElem?_length_append {α : Type} (T rest : List α) (r : α) :
    (T ++ r :: rest)[T.length]? = some r := by
  rw [List.getElem?_append_right (Nat.le_refl _)]
  simp

theorem eraseIdx_length_append {α : Type} (T rest : List α) (r : α) :
    (T ++ r :: rest).eraseIdx T.length = T ++ rest := by
  rw [List.eraseIdx_append_of_length_le (Nat.le_refl _)]
  simp

theorem step_timer_append (s : State) (T rest : List (Int × Task)) (d : Int) (t : Task) :
    step (Event.timer T.length) (s.withTimers (T ++ (d, t) :: rest)) =
      runTask t (s.withTimers (T ++ rest)) := by
  show (match (T ++ (d, t) :: rest)[T.length]? with
    | some x => runTask x.2
        { s.withTimers (T ++ (d, t) :: rest) with
          timers := (T ++ (d, t) :: rest).eraseIdx T.length }
    | none => s.withTimers (T ++ (d, t) :: rest)) = _
  rw [getElem?_length_append, eraseIdx_length_append]
  rfl

theorem hide_then_timer (toastId : Nat) (s : State) (h : toastId ∈ s.ids) :
    run [Event.hide toastId, Event.timer s.timers.length] s = removeChild toastId s := by
  show step (Event.timer s.timers.length) (hide toastId s) = _
  rw [hide_of_mem toastId s h, step_timer_append]
  show removeChild toastId _ = _
  rw [List.append_nil, removeChild_modifyNode toastId s hideClasses (fun _ => rfl),
    withTimers_self]

theorem hide_hide_then_timers (toastId : Nat) (s : State) (h : toastId ∈ s.ids)
    (hnd : s.ids.Nodup) :
    run [Event.hide toastId, Event.hide toastId, Event.timer s.timers.length,
      Event.timer s.timers.length] s = removeChild toastId s := by
  have hm : toastId ∈ (s.modifyNode toastId hideClasses).ids := by
    rw [(modifyNode_frame s toastId hideClasses (fun _ => rfl)).ids]; exact h
  have h1 : toastId ∈ ((s.modifyNode toastId hideClasses).withTimers
      (s.timers ++ [((400 : Int), Task.remove toastId)])).ids := hm
  have hgone : toastId ∉ (removeChild toastId s).ids := by
    rw [(removeChild_of_mem toastId s h).2.1]
    exact fun hm => (hnd.mem_erase_iff.mp hm).1 rfl
  show step (Event.timer s.timers.length) (step (Event.timer s.timers.length)
    (hide toastId (hide toastId s))) = _
  rw [hide_of_mem toastId s h, hide_of_mem toastId _ h1]
  have e : ((s.modifyNode toastId hideClasses).withTimers
      (s.timers ++ [((400 : Int), Task.remove toastId)])).timers ++
        [((400 : Int), Task.remove toastId)] =
      s.timers ++ ((400 : Int), Task.remove toastId) :: [((400 : Int), Task.remove toastId)] := by
    show (s.timers ++ [((400 : Int), Task.remove toastId)]) ++ _ = _
    simp
  rw [e, step_timer_append]
  show step (Event.timer s.timers.length) (removeChild toastId
    ((((s.modifyNode toastId hideClasses).withTimers
      (s.timers ++ [((400 : Int), Task.remove toastId)])).modifyNode toastId
        hideClasses).withTimers (s.timers ++ [((400 : Int), Task.remove toastId)]))) = _
  rw [removeChild_modifyNode toastId _ hideClasses (fun _ => rfl)]
  show step (Event.timer s.timers.length) (removeChild toastId
    ((s.modifyNode toastId hideClasses).withTimers
      (s.timers ++ [((400 : Int), Task.remove toastId)]))) = _
  rw [removeChild_modifyNode toastId s hideClasses (fun _ => rfl),
    removeChild_withTimers toastId s _ h]
  have e2 : s.timers ++ [((400 : Int), Task.remove toastId)] ++
      List.replicate (s.observers.count toastId) ((100 : Int), Task.settle) =
      s.timers ++ ((400 : Int), Task.remove toastId) ::
        List.replicate (s.observers.count toastId) ((100 : Int), Task.settle) := by
    simp
  rw [e2, step_timer_append]
  show removeChild toastId _ = _
  rw [removeChild_of_not_mem _ _ (by rw [withTimers_ids]; exact hgone),
    ← removeChild_timers toastId s h, withTimers_self]

theorem modifyFirst_idem {α : Type} (p : α → Bool) (f : α → α) (hp : ∀ x, p (f x) = p x)
    (hf : ∀ x, f (f x) = f x) (l : List α) :
    modifyFirst p f (modifyFirst p f l) = modifyFirst p f l := by
  induction l with
  | nil => rfl
  | cons x xs ih =>
    by_cases hx : p x = true
    · simp [modifyFirst, hx, hp, hf]
    · simp [modifyFirst, hx, ih]

theorem hideClasses_idem (t : ToastNode) : hideClasses (hideClasses t) = hideClasses t := by
  have key : ∀ l : List String,
      classListAdd "hide" (classListRemove "show" (classListAdd "hide" (classListRemove "show" l))) =
        classListAdd "hide" (classListRemove "show" l) := by
    intro l
    have hmem : "hide" ∈ classListAdd "hide" (classListRemove "show" l) := by
      unfold classListAdd
      split
      · assumption
      · simp
    have hno : classListRemove "show" (classListAdd "hide" (classListRemove "show" l)) =
        classListAdd "hide" (classListRemove "show" l) := by
      unfold classListRemove
      apply List.filter_eq_self.mpr
      intro x hx
      unfold classListAdd at hx
      split at hx
      · simpa using (List.mem_filter.mp hx).2
      · rcases List.mem_append.mp hx with hx | hx
        · simpa using (List.mem_filter.mp hx).2
        · have : x = "hide" := by simpa using hx
          rw [this]; decide
    rw [hno]
    unfold classListAdd at hmem ⊢
    rw [if_pos hmem]
  unfold hideClasses
  simp only [key]

theorem hide_hide_container (toastId : Nat) (s : State) :
    (hide toastId (hide toastId s)).container = (hide toastId s).container := by
  by_cases h : toastId ∈ s.ids
  · have hm : toastId ∈ ((s.modifyNode toastId hideClasses).withTimers
        (s.timers ++ [((400 : Int), Task.remove toastId)])).ids := by
      rw [withTimers_ids, (modifyNode_frame s toastId hideClasses (fun _ => rfl)).ids]; exact h
    rw [hide_of_mem toastId s h, hide_of_mem toastId _ hm]
    cases hc : s.container with
    | none => simp [State.modifyNode, State.withTimers, hc]
    | some c =>
      simp only [State.modifyNode, State.withTimers, hc]
      rw [modifyFirst_idem (fun t : ToastNode => decide (t.id = toastId)) hideClasses
        (fun _ => rfl) hideClasses_idem]
  · rw [hide_of_not_mem toastId s h, hide_of_not_mem toastId s h]

theorem process_promises (s : State) : (process s).promises = s.promises := by
  by_cases hn : s.toastQueue.processing = true ∨
      s.toastQueue.currentCount ≥ s.toastQueue.maxConcurrent
  · rw [process_noop s (by tauto)]
  · cases hq : s.toastQueue.queue with
    | nil => rw [process_noop s (Or.inr (Or.inr hq))]
    | cons o rest =>
      have hp : s.toastQueue.processing = false := by
        cases hb : s.toastQueue.processing
        · rfl
        · exact absurd (Or.inl hb) hn
      have hc : s.toastQueue.currentCount < s.toastQueue.maxConcurrent := by
        by_contra hlt
        exact hn (Or.inr (by omega))
      exact (process_admits s o rest hp hc hq).2.2.2.2.2

theorem removeChild_promises (toastId : Nat) (s : State) :
    (removeChild toastId s).promises = s.promises := by
  by_cases hm : toastId ∈ s.ids
  · exact (removeChild_of_mem toastId s hm).2.2.2.2.2
  · rw [removeChild_of_not_mem toastId s hm]

theorem runTask_promises (t : Task) (s : State) : (runTask t s).promises = s.promises := by
  cases t with
  | addShow toastId => exact modifyNode_promises s toastId _
  | hide toastId => exact hide_promises toastId s
  | remove toastId => exact removeChild_promises toastId s
  | process => exact process_promises s
  | settle => exact process_promises _
  | fire o => exact fire_promises o s

theorem step_promises (e : Event) (s : State) (he : e.isClickAction = false) :
    ∃ extra, (step e s).promises = s.promises ++ extra := by
  cases e with
  | domContentLoaded => exact ⟨[], by simp [step]⟩
  | fire o => exact ⟨[], by simp [step, fire_promises]⟩
  | hide toastId => exact ⟨[], by simp [step, hide_promises]⟩
  | clear => exact ⟨[], by simp [step, clear]⟩
  | setPosition p =>
    refine ⟨[], ?_⟩
    simp only [step, setPosition, List.append_nil]
    split <;> simp
  | toggleSound => exact ⟨[], by simp [step, toggleSound]⟩
  | queue o =>
    refine ⟨[], ?_⟩
    show (process _).promises = _
    rw [process_promises]; simp
  | batch toastArray => exact ⟨[], by simp [step, batch]⟩
  | success t m o => exact ⟨[], by simp [step, success, fire_promises]⟩
  | error t m o => exact ⟨[], by simp [step, error, fire_promises]⟩
  | warning t m o => exact ⟨[], by simp [step, warning, fire_promises]⟩
  | info t m o => exact ⟨[], by simp [step, info, fire_promises]⟩
  | progress t m o => exact ⟨[], by simp [step, progress, fire_promises]⟩
  | update toastId newMessage => exact ⟨[], by simp [step, update, modifyNode_promises]⟩
  | confirm t m o => exact ⟨[none], by simp [step, confirm, fire_promises]⟩
  | clickClose toastId =>
    refine ⟨[], ?_⟩
    simp only [step, clickClose, List.append_nil]
    split
    · split
      · exact hide_promises toastId s
      · rfl
    · rfl
  | clickAction toastId index => simp [Event.isClickAction] at he
  | timer i =>
    refine ⟨[], ?_⟩
    show (match s.timers[i]? with
      | some x => runTask x.2 { s with timers := s.timers.eraseIdx i }
      | none => s).promises = _
    split
    · rw [runTask_promises]; simp
    · simp
  | detach toastId => exact ⟨[], by simp [step, removeChild_promises]⟩

theorem run_promises (es : List Event) (s : State)
    (he : ∀ e ∈ es, e.isClickAction = false) :
    ∃ extra, (run es s).promises = s.promises ++ extra := by
  induction es generalizing s with
  | nil => exact ⟨[], by simp [run]⟩
  | cons e es ih =>
    obtain ⟨x1, h1⟩ := step_promises e s (he e (List.mem_cons_self _ _))
    obtain ⟨x2, h2⟩ := ih (step e s) (fun e' h' => he e' (List.mem_cons_of_mem _ h'))
    exact ⟨x1 ++ x2, by rw [run_cons, h2, h1, List.append_assoc]⟩

theorem getElementById_fire (o : Options) (s : State) (hlt : ∀ h ∈ s.ids, h < s.toastCounter) :
    (fire o s).2.getElementById s.toastCounter = some (mkToast o s.toastCounter) := by
  unfold State.getElementById
  rw [fire_children, List.find?_append]
  have hnone : s.children.find? (fun t => decide (t.id = s.toastCounter)) = none := by
    rw [List.find?_eq_none]
    intro t ht
    have := hlt t.id (List.mem_map.mpr ⟨t, ht, rfl⟩)
    simp only [decide_eq_true_eq]
    omega
  rw [hnone]
  simp [mkToast]

theorem mem_ids_of_getElementById (toastId : Nat) (s : State) (t : ToastNode)
    (h : s.getElementById toastId = some t) : toastId ∈ s.ids := by
  by_contra hn
  rw [find_eq_none_of_not_mem toastId s hn] at h
  cases h

theorem getElementById_hide (toastId : Nat) (s : State) (t : ToastNode)
    (h : s.getElementById toastId = some t) :
    (hide toastId s).getElementById toastId = some (hideClasses t) := by
  rw [hide_of_mem toastId s (mem_ids_of_getElementById toastId s t h)]
  unfold State.getElementById at h ⊢
  cases hc : s.container with
  | none => simp [State.children, hc] at h
  | some c =>
    simp only [State.children, hc] at h
    simp only [State.children, State.withTimers, State.modifyNode, hc]
    rw [find_modifyFirst (fun t : ToastNode => decide (t.id = toastId)) hideClasses
      (fun _ => rfl), h]
    rfl

theorem resolvePromise_pending (p : Nat) (b : Bool) (s : State)
    (h : s.promises[p]? = some none) :
    (resolvePromise p b s).promises[p]? = some (some b) := by
  unfold resolvePromise
  rw [h]
  have hlt : p < s.promises.length := by
    by_contra hn
    rw [List.getElem?_eq_none (by omega)] at h
    cases h
  simp [hlt]

theorem resolvePromise_settled (p : Nat) (b v : Bool) (s : State)
    (h : s.promises[p]? = some (some v)) : resolvePromise p b s = s := by
  unfold resolvePromise
  rw [h]

theorem resolvePromise_getElementById (p : Nat) (b : Bool) (s : State) (toastId : Nat) :
    (resolvePromise p b s).getElementById toastId = s.getElementById toastId := by
  unfold resolvePromise
  split <;> rfl

theorem clickAction_resolve (s : State) (toastId index p : Nat) (b : Bool) (t : ToastNode)
    (x : Option String) (hget : s.getElementById toastId = some t)
    (hact : t.actions[index]? =
      some { text := x, onClick := some (Callback.resolve p b), closeOnClick := none }) :
    clickAction toastId index s = hide toastId (resolvePromise p b s) := by
  unfold clickAction
  rw [hget]
  simp only [hact, runCallback]
  simp

theorem confirm_core (title message : Option String) (o : ConfirmOptions) (s : State)
    (ho : o.actions = none) (hfresh : ∀ h ∈ s.ids, h < s.toastCounter) :
    (confirm title message o s).1 = s.promises.length ∧
    (confirm title message o s).2.promises = s.promises ++ [none] ∧
    ((confirm title message o s).2.getElementById s.toastCounter).map (fun t => t.actions) =
      some [{ text := some (orDefault o.confirmText "Yes"),
              onClick := some (Callback.resolve s.promises.length true) },
            { text := some (orDefault o.cancelText "No"),
              onClick := some (Callback.resolve s.promises.length false) }] ∧
    (clickAction s.toastCounter 0 (confirm title message o s).2).promises[s.promises.length]? =
      some (some true) ∧
    (clickAction s.toastCounter 1 (confirm title message o s).2).promises[s.promises.length]? =
      some (some false) ∧
    (∀ i j : Nat, i < 2 → j < 2 →
      (clickAction s.toastCounter j
        (clickAction s.toastCounter i (confirm title message o s).2)).promises[s.promises.length]? =
      some (some (decide (i = 0)))) ∧
    (∀ es : List Event, (∀ e ∈ es, e.isClickAction = false) →
      (run es (confirm title message o s).2).promises[s.promises.length]? = some none) := by
  have hprom : (confirm title message o s).2.promises = s.promises ++ [none] := by
    simp [confirm, fire_promises]
  have hpend : (confirm title message o s).2.promises[s.promises.length]? = some none := by
    rw [hprom]; simp
  have hget : (confirm title message o s).2.getElementById s.toastCounter =
      some (mkToast (confirmOptions title message o s.promises.length) s.toastCounter) :=
    getElementById_fire _ { s with promises := s.promises ++ [none] } hfresh
  have hacts : (mkToast (confirmOptions title message o s.promises.length) s.toastCounter).actions =
      [{ text := some (orDefault o.confirmText "Yes"),
         onClick := some (Callback.resolve s.promises.length true) },
       { text := some (orDefault o.cancelText "No"),
         onClick := some (Callback.resolve s.promises.length false) }] := by
    simp [mkToast, confirmOptions, Options.spread, ho]
  have hclick : ∀ i : Nat, i < 2 →
      clickAction s.toastCounter i (confirm title message o s).2 =
        hide s.toastCounter
          (resolvePromise s.promises.length (decide (i = 0)) (confirm title message o s).2) := by
    intro i hi
    interval_cases i
    · exact clickAction_resolve _ _ _ _ _ _ _ hget (by rw [hacts]; rfl)
    · exact clickAction_resolve _ _ _ _ _ _ _ hget (by rw [hacts]; rfl)
  have hfirst : ∀ i : Nat, i < 2 →
      (clickAction s.toastCounter i (confirm title message o s).2).promises[s.promises.length]? =
        some (some (decide (i = 0))) := by
    intro i hi
    rw [hclick i hi, hide_promises]
    exact resolvePromise_pending _ _ _ hpend
  refine ⟨rfl, hprom, by rw [hget]; simp [hacts], hfirst 0 (by omega), hfirst 1 (by omega),
    ?_, ?_⟩
  · intro i j hi hj
    have hget2 : (clickAction s.toastCounter i (confirm title message o s).2).getElementById
        s.toastCounter =
        some (hideClasses
          (mkToast (confirmOptions title message o s.promises.length) s.toastCounter)) := by
      rw [hclick i hi]
      apply getElementById_hide
      rw [resolvePromise_getElementById]; exact hget
    have hacts2 : (hideClasses
        (mkToast (confirmOptions title message o s.promises.length) s.toastCounter)).actions =
        [{ text := some (orDefault o.confirmText "Yes"),
           onClick := some (Callback.resolve s.promises.length true) },
         { text := some (orDefault o.cancelText "No"),
           onClick := some (Callback.resolve s.promises.length false) }] := hacts
    have hsecond : clickAction s.toastCounter j
        (clickAction s.toastCounter i (confirm title message o s).2) =
        hide s.toastCounter (resolvePromise s.promises.length (decide (j = 0))
          (clickAction s.toastCounter i (confirm title message o s).2)) := by
      interval_cases j
      · exact clickAction_resolve _ _ _ _ _ _ _ hget2 (by rw [hacts2]; rfl)
      · exact clickAction_resolve _ _ _ _ _ _ _ hget2 (by rw [hacts2]; rfl)
    rw [hsecond, hide_promises, resolvePromise_settled _ _ _ _ (hfirst i hi)]
    exact hfirst i hi
  · intro es hes
    obtain ⟨extra, hx⟩ := run_promises es (confirm title message o s).2 hes
    rw [hx, hprom, List.append_assoc]
    exact getElem?_length_append s.promises extra none

theorem admittedHandles_length (l : List Obs) :
    (admittedHandles l).length = (admittedRequests l).length := by
  induction l with
  | nil => rfl
  | cons x xs ih => cases x <;> simp [admittedHandles, admittedRequests, ih]

theorem init_enqueued : enqueuedRequests init.log = [] := rfl

theorem fresh_queue (pre : List Event) (hpre : queuedBy pre = []) :
    (run pre init).toastQueue.queue = [] ∧
    admittedRequests (run pre init).log = [] ∧
    admittedHandles (run pre init).log = [] ∧
    (run pre init).toastQueue.currentCount = 0 := by
  have hI := inv_init.run pre
  have hf := hI.fifo
  rw [run_enqueued, hpre, init_enqueued] at hf
  simp only [List.append_nil] at hf
  obtain ⟨h1, h2⟩ := List.append_eq_nil.mp hf
  have h3 : admittedHandles (run pre init).log = [] := by
    apply List.eq_nil_of_length_eq_zero
    rw [admittedHandles_length, h1]; rfl
  refine ⟨h2, h1, h3, ?_⟩
  rw [hI.count_eq, hI.observers_eq, h3]; rfl

theorem burst_from (s0 : State) (hI0 : Inv s0) (hq : s0.toastQueue.queue = [])
    (hc : s0.toastQueue.currentCount = 0) (ha : admittedHandles s0.log = [])
    (os : List Options) :
    (run (os.map Event.queue) s0).toastQueue.queue = os.drop 3 ∧
    (run (os.map Event.queue) s0).toastQueue.currentCount = (min os.length 3 : Nat) ∧
    (run (os.map Event.queue) s0).toastCounter = s0.toastCounter + min os.length 3 ∧
    admittedHandles (run (os.map Event.queue) s0).log =
      List.range' s0.toastCounter (min os.length 3) ∧
    (∀ h ∈ admittedHandles (run (os.map Event.queue) s0).log,
      h ∈ (run (os.map Event.queue) s0).ids) := by
  induction os using List.reverseRecOn with
  | nil => simp [run, hq, hc, ha]
  | append_singleton l a ih =>
    obtain ⟨h1, h2, h3, h5, h6⟩ := ih
    have hI := hI0.run (l.map Event.queue)
    have hrun : run ((l ++ [a]).map Event.queue) s0 = add a (run (l.map Event.queue) s0) := by
      rw [List.map_append, run_append]; rfl
    rw [hrun]
    by_cases hl : l.length < 3
    · have hmin : min l.length 3 = l.length := by omega
      have hmin2 : min (l ++ [a]).length 3 = l.length + 1 := by simp; omega
      have hq' : (run (l.map Event.queue) s0).toastQueue.queue = [] := by
        rw [h1]; exact List.drop_eq_nil_of_le (by omega)
      obtain ⟨e1, e2, e3, e4, e5⟩ := add_admits _ a hI hq' (by rw [h2]; omega)
      rw [hmin] at h2 h3 h5
      refine ⟨?_, ?_, ?_, ?_, ?_⟩
      · rw [e1]; symm; apply List.drop_eq_nil_of_le; simp; omega
      · rw [e2, h2, hmin2]; push_cast; ring
      · rw [e3, h3, hmin2]; ring
      · rw [e5, h5, h3, hmin2, List.range'_1_concat]
      · rw [e5, e4]
        intro h hh
        rcases List.mem_append.mp hh with hh | hh
        · exact List.mem_append_left _ (h6 h hh)
        · exact List.mem_append_right _ hh
    · have hmin : min l.length 3 = 3 := by omega
      have hmin2 : min (l ++ [a]).length 3 = 3 := by simp; omega
      obtain ⟨e1, e2, e3, e4, e5⟩ := add_full (run (l.map Event.queue) s0) a
        (by rw [hI.max_eq, h2, hmin]; norm_num)
      rw [hmin] at h2 h3 h5
      refine ⟨?_, ?_, ?_, ?_, ?_⟩
      · rw [e1, h1, List.drop_append_of_le_length (by omega)]
      · rw [e2, h2, hmin2]
      · rw [e3, h3, hmin2]
      · rw [e5, h5, hmin2]
      · rw [e5, e4]; exact h6

theorem burst_admitted (pre : List Event) (os : List Options) (hpre : queuedBy pre = []) :
    admittedRequests (run (os.map Event.queue) (run pre init)).log = os.take 3 := by
  obtain ⟨f1, _, f3, f4⟩ := fresh_queue pre hpre
  obtain ⟨h1, _, _, _, _⟩ := burst_from (run pre init) (inv_init.run pre) f1 f4 f3 os
  have hf := ((inv_init.run pre).run (os.map Event.queue)).fifo
  rw [run_enqueued, run_enqueued, hpre, h1, init_enqueued] at hf
  simp only [List.nil_append, List.append_nil, queuedBy_map_queue] at hf
  exact List.append_cancel_right (hf.trans (List.take_append_drop 3 os).symm)

theorem release_admits_next (pre : List Event) (os : List Options) (h : Nat)
    (hpre : queuedBy pre = []) (hlen : 3 < os.length)
    (hh : h ∈ admittedHandles (run (os.map Event.queue) (run pre init)).log) :
    admittedRequests (process (removeChild h (run (os.map Event.queue) (run pre init)))).log =
      os.take 4 := by
  obtain ⟨f1, _, f3, f4⟩ := fresh_queue pre hpre
  obtain ⟨h1, h2, _, _, h6⟩ := burst_from (run pre init) (inv_init.run pre) f1 f4 f3 os
  have hmin : min os.length 3 = 3 := by omega
  rw [hmin] at h2
  have hI := (inv_init.run pre).run (os.map Event.queue)
  have hR := hI.removeChild h
  obtain ⟨_, _, _, e4, e5, _⟩ := removeChild_of_mem h _ (h6 h hh)
  have hobs : h ∈ (run (os.map Event.queue) (run pre init)).observers := by
    rw [hI.observers_eq]; exact List.mem_filter.mpr ⟨hh, by simpa using h6 h hh⟩
  have hnd : (run (os.map Event.queue) (run pre init)).observers.Nodup := by
    rw [hI.observers_eq]; exact hI.adm_nodup.filter _
  have hcount : (removeChild h (run (os.map Event.queue) (run pre init))).toastQueue.currentCount
      < 3 := by
    rw [e4]
    show (run (os.map Event.queue) (run pre init)).toastQueue.currentCount - _ < 3
    rw [h2, List.count_eq_one_of_mem hnd hobs]; norm_num
  obtain ⟨o, rest, hdrop⟩ : ∃ o rest, os.drop 3 = o :: rest := by
    cases hd : os.drop 3 with
    | nil =>
      have := congrArg List.length hd
      simp at this; omega
    | cons o rest => exact ⟨o, rest, rfl⟩
  have hq : (removeChild h (run (os.map Event.queue) (run pre init))).toastQueue.queue =
      o :: rest := by
    rw [e4]; show (run (os.map Event.queue) (run pre init)).toastQueue.queue = _; rw [h1, hdrop]
  obtain ⟨_, _, _, _, p5, _⟩ := process_admits _ o rest hR.not_processing
    (by rw [hR.max_eq]; exact hcount) hq
  rw [p5, admittedRequests_append, e5, burst_admitted pre os hpre]
  simp only [admittedRequests]
  have : os.take 4 = os.take 3 ++ (os.drop 3).take 1 := by
    rw [← List.take_add]
  rw [this, hdrop]; rfl

theorem fire_timers (o : Options) (s : State) :
    (fire o s).2.timers = s.timers ++ [((0 : Int), Task.addShow s.toastCounter)] ++
      (if o.autoHide.getD true = true ∧ o.duration.getD 5000 > 0 then
        [(o.duration.getD 5000, Task.hide s.toastCounter)] else []) := by
  simp [fire]

theorem fire_withQueue (o : Options) (s : State) (q : ToastQueue) :
    fire o (s.withQueue q) = ((fire o s).1, (fire o s).2.withQueue q) := by
  obtain ⟨tc, cp, se, cont, Q, obs, T, pr, lg⟩ := s
  cases cont with
  | none =>
    simp only [fire, State.withQueue, initializeContainer, applyPosition]
    split <;> simp [updateContainerPosition, appendChild]
  | some c =>
    simp only [fire, State.withQueue, initializeContainer, applyPosition]
    split <;> simp [updateContainerPosition, appendChild]

theorem process_eq_noFlag (t : State) (h : t.toastQueue.processing = false) :
    process t = processNoFlag t := by
  by_cases hc : t.toastQueue.currentCount ≥ t.toastQueue.maxConcurrent
  · rw [process_noop t (Or.inr (Or.inl hc))]
    simp [processNoFlag, hc]
  · cases hq : t.toastQueue.queue with
    | nil =>
      rw [process_noop t (Or.inr (Or.inr hq))]
      simp [processNoFlag, hc, hq]
    | cons o rest =>
      have hn : ¬ (t.toastQueue.processing = true ∨
          t.toastQueue.currentCount ≥ t.toastQueue.maxConcurrent) := by
        rintro (hp | hp)
        · rw [h] at hp; cases hp
        · exact hc hp
      have e1 : fire o { t with toastQueue :=
          { t.toastQueue with processing := true, queue := rest,
                              currentCount := t.toastQueue.currentCount + 1 } } = _ :=
        fire_withQueue o t _
      have e2 : fire o { t with toastQueue :=
          { t.toastQueue with queue := rest,
                              currentCount := t.toastQueue.currentCount + 1 } } = _ :=
        fire_withQueue o t _
      unfold process processNoFlag
      simp only [hn, hc, if_false, hq]
      rw [e1, e2]
      simp only [State.withQueue]
      cases (fire o t).2.container <;> simp [h]

theorem runTask_eq_noFlag (t : Task) (s : State) (h : s.toastQueue.processing = false) :
    runTask t s = runTaskNoFlag t s := by
  cases t with
  | addShow toastId => rfl
  | hide toastId => rfl
  | remove toastId => rfl
  | process => exact process_eq_noFlag s h
  | settle =>
    show process { s with toastQueue := { s.toastQueue with processing := false } } =
      processNoFlag s
    have e : ({ s with toastQueue := { s.toastQueue with processing := false } } : State) = s := by
      rw [← h]
    rw [e]; exact process_eq_noFlag s h
  | fire o => rfl

theorem step_eq_noFlag (e : Event) (s : State) (h : s.toastQueue.processing = false) :
    step e s = stepNoFlag e s := by
  cases e with
  | queue o => exact process_eq_noFlag _ h
  | timer i =>
    show (match s.timers[i]? with
      | some x => runTask x.2 { s with timers := s.timers.eraseIdx i }
      | none => s) =
      (match s.timers[i]? with
      | some x => runTaskNoFlag x.2 { s with timers := s.timers.eraseIdx i }
      | none => s)
    cases s.timers[i]? with
    | none => rfl
    | some x => exact runTask_eq_noFlag x.2 _ h
  | _ => rfl

theorem run_eq_noFlag (es : List Event) (s : State) (hI : Inv s) :
    run es s = runNoFlag es s := by
  induction es generalizing s with
  | nil => rfl
  | cons e es ih =>
    show run es (step e s) = runNoFlag es (stepNoFlag e s)
    rw [← step_eq_noFlag e s hI.not_processing]
    exact ih (step e s) (hI.step e)

theorem processEntries_processing (e : Event) (s : State)
    (h : s.toastQueue.processing = false) :
    ∀ t ∈ processEntries e s, t.toastQueue.processing = false := by
  intro t ht
  cases e with
  | queue o =>
    simp only [processEntries, List.mem_singleton] at ht
    rw [ht]; exact h
  | timer i =>
    simp only [processEntries] at ht
    split at ht
    · simp only [List.mem_singleton] at ht
      rw [ht]; exact h
    · simp only [List.mem_singleton] at ht
      rw [ht]
    · simp at ht
  | _ => simp [processEntries] at ht

theorem fire_eq_fireAborted (o : Options) (s : State) :
    (fire o s).2 =
      { fireAborted o s with
        timers := (fireAborted o s).timers ++
          [((0 : Int), Task.addShow (fire o s).1)] ++
          (if o.autoHide.getD true = true ∧ o.duration.getD 5000 > 0 then
            [(o.duration.getD 5000, Task.hide (fire o s).1)] else [])
        log := (fireAborted o s).log ++ [Obs.fired o (fire o s).1] } := rfl

theorem fireE_of_not_throws (o : Options) (s : State)
    (h : soundThrows o s.soundEnabled = false) : fireE o s = Except.ok (fire o s) := by
  simp [fireE, h]

theorem processE_of_not_throws (s : State)
    (h : ∀ o ∈ s.toastQueue.queue.head?, soundThrows o s.soundEnabled = false) :
    processE s = Except.ok (process s) := by
  unfold processE
  simp only []
  split
  · rename_i hg
    rw [process_noop s (by tauto)]
  · cases hq : s.toastQueue.queue with
    | nil => simp only []; rw [process_noop s (Or.inr (Or.inr hq))]
    | cons o rest =>
      have ho := h o (by rw [hq]; rfl)
      simp only []
      rw [fireE_of_not_throws o _ (by exact ho)]

theorem queueE_of_not_throws (o : Options) (s : State)
    (h : ∀ r ∈ (s.toastQueue.queue ++ [o]).head?, soundThrows r s.soundEnabled = false) :
    queueE o s = Except.ok (queue o s) :=
  processE_of_not_throws _ h

/-! ## Lemmas: the queue while every call of `fire` returns -/

/-- The burst of queue calls when every call of `fire` returns.  Let
`Toast.queue` be called with the requests `os`, one after the other, in a
reachable state in which it has not been called before.  Then the requests
handed to `fire` are the first `min N 3` ones, `fire` has been called for
them and for nothing else (their handles are the next `min N 3` counter
values), `currentCount` is `min N 3` and the other requests are pending in
arrival order.  When there are at least three, whatever happens next, as long
as the nodes of the three admitted toasts stay in the container nothing more
is admitted: the pending requests stay pending, followed by those queued
later.  When there is a fourth, the removal of one of the three nodes
followed by an admission pass admits it. -/
theorem queue_burst (pre : List Event) (os : List Options) (hpre : queuedBy pre = []) :
    admittedRequests (run (os.map Event.queue) (run pre init)).log = os.take 3 ∧
    admittedHandles (run (os.map Event.queue) (run pre init)).log =
      List.range' (run pre init).toastCounter (min os.length 3) ∧
    firedHandles (run (os.map Event.queue) (run pre init)).log =
      firedHandles (run pre init).log ++
        admittedHandles (run (os.map Event.queue) (run pre init)).log ∧
    (run (os.map Event.queue) (run pre init)).toastQueue.currentCount = (min os.length 3 : Nat) ∧
    (run (os.map Event.queue) (run pre init)).toastQueue.queue = os.drop 3 ∧
    (3 ≤ os.length → ∀ es : List Event,
      aliveThroughout (admittedHandles (run (os.map Event.queue) (run pre init)).log) es
        (run (os.map Event.queue) (run pre init)) = true →
      (run es (run (os.map Event.queue) (run pre init))).toastQueue.queue =
        os.drop 3 ++ queuedBy es ∧
      admittedRequests (run es (run (os.map Event.queue) (run pre init))).log = os.take 3) ∧
    (3 < os.length → ∀ h ∈ admittedHandles (run (os.map Event.queue) (run pre init)).log,
      admittedRequests
        (process (removeChild h (run (os.map Event.queue) (run pre init)))).log = os.take 4) := by
  obtain ⟨f1, _, f3, f4⟩ := fresh_queue pre hpre
  obtain ⟨h1, h2, h3, h5, h6⟩ := burst_from (run pre init) (inv_init.run pre) f1 f4 f3 os
  have hI := (inv_init.run pre).run (os.map Event.queue)
  have hadm := burst_admitted pre os hpre
  refine ⟨hadm, h5, ?_, h2, h1, ?_, ?_⟩
  · rw [hI.fired, (inv_init.run pre).fired, h3, h5, Nat.add_comm,
      List.range_eq_range', List.range_eq_range', ← List.range'_append]
    simp
  · intro hlen es halive
    have hmin : min os.length 3 = 3 := by omega
    obtain ⟨r1, r2⟩ := stays_pending
      (admittedHandles (run (os.map Event.queue) (run pre init)).log)
      (by rw [h5, hmin]; simp) es _ hI rfl h6 halive
    rw [r1, r2, h1, hadm]
    exact ⟨rfl, rfl⟩
  · intro hlen h hh
    exact release_admits_next pre os h hpre hlen hh

/-- The burst at `burstRequests` after `burstPrelude`, followed by
`burstEvents`, and at the removal of the node of handle 1, the first admitted
one. -/
theorem queue_burst_witness :
    queuedBy burstPrelude = [] ∧
    (3 ≤ burstRequests.length ∧
     aliveThroughout
       (admittedHandles (run (burstRequests.map Event.queue) (run burstPrelude init)).log)
       burstEvents (run (burstRequests.map Event.queue) (run burstPrelude init)) = true ∧
     (run burstEvents
        (run (burstRequests.map Event.queue) (run burstPrelude init))).toastQueue.queue =
       burstRequests.drop 3 ++ queuedBy burstEvents ∧
     admittedRequests (run burstEvents
        (run (burstRequests.map Event.queue) (run burstPrelude init))).log =
       burstRequests.take 3) ∧
    (3 < burstRequests.length ∧
     1 ∈ admittedHandles (run (burstRequests.map Event.queue) (run burstPrelude init)).log ∧
     admittedRequests (process (removeChild 1
        (run (burstRequests.map Event.queue) (run burstPrelude init)))).log =
       burstRequests.take 4) :=
  ⟨by decide,
   ⟨by decide, by decide,
    (queue_burst burstPrelude burstRequests (by decide)).2.2.2.2.2.1 (by decide) burstEvents
      (by decide)⟩,
   ⟨by decide, by decide,
    (queue_burst burstPrelude burstRequests (by decide)).2.2.2.2.2.2 (by decide) 1
      (by decide)⟩⟩

/-- The count when every call of `fire` returns.  In every reachable state
`currentCount` is the number of admitted handles whose node is still in the
container, so it is never negative.  The removal of the node of such a
handle, by the 400 ms callback of `hide` or by the page itself (both are
`removeChild`), lowers `currentCount` by exactly 1, the node is gone
afterwards and a second removal changes nothing.  The removal of a node that
is not one of the admitted and still attached ones (a toast fired directly,
an id that is not in the container) leaves `currentCount` as it is. -/
theorem currentCount_tracks_admitted (es : List Event) :
    (run es init).toastQueue.currentCount =
      (((admittedHandles (run es init).log).filter
        (fun h => decide (h ∈ (run es init).ids))).length : Int) ∧
    0 ≤ (run es init).toastQueue.currentCount ∧
    (∀ h : Nat, h ∈ admittedHandles (run es init).log → h ∈ (run es init).ids →
      (removeChild h (run es init)).toastQueue.currentCount =
        (run es init).toastQueue.currentCount - 1 ∧
      h ∉ (removeChild h (run es init)).ids ∧
      removeChild h (removeChild h (run es init)) = removeChild h (run es init)) ∧
    (∀ h : Nat, h ∉ admittedHandles (run es init).log ∨ h ∉ (run es init).ids →
      (removeChild h (run es init)).toastQueue.currentCount =
        (run es init).toastQueue.currentCount) := by
  have hI := inv_init.run es
  refine ⟨?_, ?_, ?_, ?_⟩
  · rw [hI.count_eq, hI.observers_eq]
  · rw [hI.count_eq]; exact Int.natCast_nonneg _
  · intro h hadm hids
    obtain ⟨_, e2, _, e4, _, _⟩ := removeChild_of_mem h _ hids
    have hobs : h ∈ (run es init).observers := by
      rw [hI.observers_eq]; exact List.mem_filter.mpr ⟨hadm, by simpa using hids⟩
    have hnd : (run es init).observers.Nodup := by
      rw [hI.observers_eq]; exact hI.adm_nodup.filter _
    have hgone : h ∉ (removeChild h (run es init)).ids := by
      rw [e2]; exact fun hm => (hI.ids_nodup.mem_erase_iff.mp hm).1 rfl
    refine ⟨?_, hgone, removeChild_of_not_mem h _ hgone⟩
    rw [e4]
    show (run es init).toastQueue.currentCount - _ = _
    rw [List.count_eq_one_of_mem hnd hobs]; rfl
  · intro h hor
    by_cases hids : h ∈ (run es init).ids
    · obtain ⟨_, _, _, e4, _, _⟩ := removeChild_of_mem h _ hids
      have hobs : h ∉ (run es init).observers := by
        rw [hI.observers_eq]
        intro hm
        rcases hor with hn | hn
        · exact hn (List.mem_filter.mp hm).1
        · exact hn hids
      rw [e4]
      show (run es init).toastQueue.currentCount - _ = _
      rw [List.count_eq_zero_of_not_mem hobs]; simp
    · rw [removeChild_of_not_mem h _ hids]

/-- The count at `mixedEvents`: removing the queued toast lowers it from 1 to
0, removing the directly fired one leaves it at 1. -/
theorem currentCount_tracks_admitted_witness :
    (0 ∈ admittedHandles (run mixedEvents init).log ∧ 0 ∈ (run mixedEvents init).ids ∧
      (removeChild 0 (run mixedEvents init)).toastQueue.currentCount =
        (run mixedEvents init).toastQueue.currentCount - 1) ∧
    (1 ∉ admittedHandles (run mixedEvents init).log ∧
      (removeChild 1 (run mixedEvents init)).toastQueue.currentCount =
        (run mixedEvents init).toastQueue.currentCount) :=
  ⟨⟨by decide, by decide,
    ((currentCount_tracks_admitted mixedEvents).2.2.1 0 (by decide) (by decide)).1⟩,
   ⟨by decide, (currentCount_tracks_admitted mixedEvents).2.2.2 1 (Or.inl (by decide))⟩⟩

theorem confirmE_of_not_throws (title message : Option String) (o : ConfirmOptions)
    (s : State)
    (h : soundThrows (confirmOptions title message o s.promises.length) s.soundEnabled = false) :
    confirmE title message o s = Except.ok (confirm title message o s) := by
  unfold confirmE
  simp only []
  rw [fireE_of_not_throws _ _ (by exact h)]
  rfl

/-! ## The claims -/

/-- C1: in every state reachable from the initial state by calls of the public
functions (among them `Toast.queue`), button clicks, deferred callbacks
(among them the timer-triggered admission passes) and removals of toast
nodes, `currentCount` is at most `maxConcurrent`, which is 3. -/
theorem currentCount_le_maxConcurrent (es : List Event) :
    (run es init).toastQueue.currentCount ≤ (run es init).toastQueue.maxConcurrent ∧
      (run es init).toastQueue.maxConcurrent = 3 := by
  have h := inv_init.run es
  exact ⟨by rw [h.max_eq]; exact h.count_le, h.max_eq⟩

/-- C2: in every reachable state the requests handed to `fire` by
`ToastQueue.process`, in admission order, followed by the requests still
pending, are exactly the requests passed to `Toast.queue`, in call order: the
admitted requests are an initial segment of the enqueued ones, none
reordered, repeated or skipped. -/
theorem admitted_in_arrival_order (es : List Event) :
    admittedRequests (run es init).log ++ (run es init).toastQueue.queue = queuedBy es := by
  have h := (inv_init.run es).fifo
  rw [h, run_enqueued]
  rfl

/-- C3 fails on the code at `Toast.queue({sound: '__proto__'})` followed by
`Toast.queue({})` on the initial state: the sound lookup of `fire` throws
inside the first admission pass, after `processing = true` and
`currentCount++`.  The call throws, no handle is returned, no observer and no
callback is registered; the second request stays pending with
`currentCount` 1, where the claim has both requests fired and `currentCount`
2, and a later pass returns at once because `processing` is still true. -/
theorem queue_throwing_request :
    (∃ s, queueE protoSound init = Except.error s) ∧
    afterThrowThenQueue.toastQueue.currentCount = 1 ∧
    afterThrowThenQueue.toastQueue.processing = true ∧
    afterThrowThenQueue.toastQueue.queue = [{}] ∧
    firedHandles afterThrowThenQueue.log = [] ∧
    afterThrowThenQueue.ids = [0] ∧
    afterThrowThenQueue.timers = [] ∧
    processE afterThrowThenQueue = Except.ok afterThrowThenQueue := by
  refine ⟨⟨_, rfl⟩, ?_, ?_, ?_, ?_, ?_, ?_, rfl⟩ <;> decide

/-- C4 fails on the code after `Toast.queue({sound: '__proto__'})` on the
initial state: the node of the admitted toast is attached and `currentCount`
is 1, but the throw in `fire` came before the observer was created, so the
removal of the node, by the page or by `hide` and its 400 ms callback,
leaves `currentCount` at 1 with no admitted node attached. -/
theorem removal_after_throw_keeps_count :
    (∃ s, queueE protoSound init = Except.error s) ∧
    afterThrow.ids = [0] ∧
    afterThrow.toastQueue.currentCount = 1 ∧
    afterThrow.observers = [] ∧
    (removeChild 0 afterThrow).ids = [] ∧
    (removeChild 0 afterThrow).toastQueue.currentCount = 1 ∧
    (run [Event.hide 0, Event.timer 0] afterThrow).ids = [] ∧
    (run [Event.hide 0, Event.timer 0] afterThrow).toastQueue.currentCount = 1 := by
  refine ⟨⟨_, rfl⟩, ?_⟩
  decide

/-- C5 as stated fails at `twoPendingTwoFree`: two requests are pending and
`currentCount` is 1 of 3, so two requests are admissible, yet the call of
`process` admits one request only and returns with `currentCount` 2 and one
request still pending. -/
theorem process_once_counterexample :
    twoPendingTwoFree.toastQueue.processing = false ∧
    admissible twoPendingTwoFree = 2 ∧
    (admittedRequests (process twoPendingTwoFree).log).length =
      (admittedRequests twoPendingTwoFree.log).length + 1 ∧
    ¬ ((process twoPendingTwoFree).toastQueue.currentCount =
          (process twoPendingTwoFree).toastQueue.maxConcurrent ∨
        (process twoPendingTwoFree).toastQueue.queue = []) := by
  decide

/-- C5, amended: a call of `process` with the `processing` flag clear admits at
most one request, namely `min 1 (min queue.length (maxConcurrent -
currentCount))` of them, taken from the head of the queue, and raises
`currentCount` by as much; when it admits it schedules the next pass 200 ms
later.  The capacity is filled by successive passes: `k` of them admit
`min k (min queue.length (maxConcurrent - currentCount))` requests, so once
`k` reaches the number of admissible requests `currentCount` is at least
`maxConcurrent` or the queue is empty. -/
theorem process_admits_one_per_pass (s : State) (hp : s.toastQueue.processing = false) :
    admittedRequests (process s).log =
      admittedRequests s.log ++ s.toastQueue.queue.take (min 1 (admissible s)) ∧
    (process s).toastQueue.queue = s.toastQueue.queue.drop (min 1 (admissible s)) ∧
    (process s).toastQueue.currentCount =
      s.toastQueue.currentCount + (min 1 (admissible s) : Nat) ∧
    (0 < admissible s → ((200 : Int), Task.process) ∈ (process s).timers) ∧
    (∀ k : Nat,
      admittedRequests (process^[k] s).log =
        admittedRequests s.log ++ s.toastQueue.queue.take (min k (admissible s)) ∧
      (process^[k] s).toastQueue.queue = s.toastQueue.queue.drop (min k (admissible s)) ∧
      (process^[k] s).toastQueue.currentCount =
        s.toastQueue.currentCount + (min k (admissible s) : Nat) ∧
      (admissible s ≤ k →
        (process^[k] s).toastQueue.currentCount ≥ (process^[k] s).toastQueue.maxConcurrent ∨
        (process^[k] s).toastQueue.queue = [])) := by
  obtain ⟨e1, e2, e3, _, _, e6⟩ := process_one s hp
  refine ⟨e1, e2, e3, e6, ?_⟩
  intro k
  obtain ⟨i1, i2, i3, i4⟩ := process_iterate k s hp
  refine ⟨i1, i2, i3, ?_⟩
  intro hk
  rw [i2, i3, i4, Nat.min_eq_right hk]
  by_cases hlen : s.toastQueue.queue.length ≤ admissible s
  · right; exact List.drop_eq_nil_of_le hlen
  · left
    unfold admissible at hlen ⊢
    omega

/-- C5, amended, at `twoPendingTwoFree`: one pass admits one request, two
passes admit both and fill the capacity. -/
theorem process_admits_one_per_pass_witness :
    twoPendingTwoFree.toastQueue.processing = false ∧
    (process twoPendingTwoFree).toastQueue.queue =
      twoPendingTwoFree.toastQueue.queue.drop (min 1 (admissible twoPendingTwoFree)) ∧
    (admissible twoPendingTwoFree ≤ 2 ∧
      ((process^[2] twoPendingTwoFree).toastQueue.currentCount ≥
          (process^[2] twoPendingTwoFree).toastQueue.maxConcurrent ∨
        (process^[2] twoPendingTwoFree).toastQueue.queue = [])) :=
  ⟨by decide, (process_admits_one_per_pass twoPendingTwoFree (by decide)).2.1,
   by decide,
   ((process_admits_one_per_pass twoPendingTwoFree (by decide)).2.2.2.2 2).2.2.2 (by decide)⟩

/-- C6: every call of `fire` returns the current `toastCounter` and increments
it by exactly 1; hence, whatever the sequence of events (direct calls,
presets, batch, progress, confirm, queue admissions), the handles returned
by `fire` so far are `0, 1, ..., toastCounter - 1` in call order: strictly
increasing, pairwise distinct, and every node in the container carries one
of them, so a handle is not given out again after its toast is removed. -/
theorem handles_strictly_increasing (es : List Event) :
    (∀ (o : Options) (s : State),
      (fire o s).1 = s.toastCounter ∧ (fire o s).2.toastCounter = s.toastCounter + 1) ∧
    firedHandles (run es init).log = List.range (run es init).toastCounter ∧
    (firedHandles (run es init).log).Pairwise (fun a b => a < b) ∧
    (firedHandles (run es init).log).Nodup ∧
    (∀ h ∈ (run es init).ids, h ∈ firedHandles (run es init).log) := by
  have hI := inv_init.run es
  refine ⟨fun o s => ⟨fire_fst o s, fire_toastCounter o s⟩, hI.fired, ?_, ?_, ?_⟩
  · rw [hI.fired]; exact List.pairwise_lt_range _
  · rw [hI.fired]; exact List.nodup_range _
  · intro h hh
    rw [hI.fired]; exact List.mem_range.mpr (hI.ids_lt h hh)

/-- C7: on a surface whose toast ids are distinct, `hide h` called twice and
then the two 400 ms callbacks leads to the same state as `hide h` called once
and then its callback: the state in which the node of `h`, if rendered, has
been detached once through `removeChild` and nothing else has changed.
Before the callbacks run the two calls leave the same container, with the
same classes, as one call.  When no rendered toast has the handle `h`,
`hide h` changes nothing. -/
theorem hide_twice_same_as_once (s : State) (h : Nat) (hnd : s.ids.Nodup) :
    run [Event.hide h, Event.hide h, Event.timer s.timers.length,
        Event.timer s.timers.length] s =
      run [Event.hide h, Event.timer s.timers.length] s ∧
    run [Event.hide h, Event.timer s.timers.length] s = removeChild h s ∧
    (run [Event.hide h, Event.hide h, Event.timer s.timers.length,
        Event.timer s.timers.length] s).ids = s.ids.erase h ∧
    (hide h (hide h s)).container = (hide h s).container ∧
    (h ∉ s.ids → hide h s = s ∧ hide h (hide h s) = s) := by
  by_cases hm : h ∈ s.ids
  · have e1 := hide_hide_then_timers h s hm hnd
    have e2 := hide_then_timer h s hm
    refine ⟨e1.trans e2.symm, e2, ?_, hide_hide_container h s, fun hn => absurd hm hn⟩
    rw [e1]; exact (removeChild_of_mem h s hm).2.1
  · have e0 : hide h s = s := hide_of_not_mem h s hm
    have et : step (Event.timer s.timers.length) s = s := by
      show (match s.timers[s.timers.length]? with
        | some x => runTask x.2 { s with timers := s.timers.eraseIdx s.timers.length }
        | none => s) = s
      rw [List.getElem?_eq_none (Nat.le_refl _)]
    have e1 : run [Event.hide h, Event.hide h, Event.timer s.timers.length,
        Event.timer s.timers.length] s = s := by
      show step (Event.timer s.timers.length) (step (Event.timer s.timers.length)
        (hide h (hide h s))) = s
      rw [e0, e0, et, et]
    have e2 : run [Event.hide h, Event.timer s.timers.length] s = s := by
      show step (Event.timer s.timers.length) (hide h s) = s
      rw [e0, et]
    refine ⟨e1.trans e2.symm, ?_, ?_, hide_hide_container h s, fun _ => ⟨e0, by rw [e0, e0]⟩⟩
    · rw [e2, removeChild_of_not_mem h s hm]
    · rw [e1, List.erase_of_not_mem hm]

/-- C7 at `oneToast`: for the rendered handle 0 and for the handle 5, which
was never given out. -/
theorem hide_twice_same_as_once_witness :
    (oneToast.ids.Nodup ∧ 0 ∈ oneToast.ids ∧
      run [Event.hide 0, Event.hide 0, Event.timer oneToast.timers.length,
          Event.timer oneToast.timers.length] oneToast =
        run [Event.hide 0, Event.timer oneToast.timers.length] oneToast) ∧
    (5 ∉ oneToast.ids ∧ hide 5 oneToast = oneToast ∧ hide 5 (hide 5 oneToast) = oneToast) :=
  ⟨⟨by decide, by decide, (hide_twice_same_as_once oneToast 0 (by decide)).1⟩,
   ⟨by decide, (hide_twice_same_as_once oneToast 5 (by decide)).2.2.2.2 (by decide)⟩⟩

/-- C8: when `p` is one of the seven positions, `setPosition p` makes it the
current position and gives the container the class `toast-container p`,
at once when the container exists and else when `initializeContainer` creates
it; the toasts, the queue and the pending callbacks are left alone.  When `p`
is not one of the seven, `setPosition p` returns the state it was given (and,
being a total function, does not throw). -/
theorem setPosition_valid_or_ignored (p : String) (s : State) :
    (p ∈ positions →
      (setPosition p s).currentPosition = p ∧
      (∀ c, s.container = some c →
        (setPosition p s).container =
          some { className := "toast-container " ++ p, children := c.children }) ∧
      (s.container = none →
        (initializeContainer (setPosition p s)).container =
          some { className := "toast-container " ++ p, children := [] }) ∧
      Frame s (setPosition p s) ∧
      (setPosition p s).timers = s.timers ∧ (setPosition p s).promises = s.promises) ∧
    (p ∉ positions → setPosition p s = s) := by
  constructor
  · intro hp
    have hne : p ≠ "" := by
      intro e; rw [e] at hp; revert hp; decide
    unfold setPosition
    rw [if_pos hp]
    refine ⟨by simp, ?_, ?_, ?_, by simp, by simp⟩
    · intro c hc
      simp [updateContainerPosition, hc, hne]
    · intro hc
      simp [updateContainerPosition, initializeContainer, hc]
    · have := setPosition_frame p s
      unfold setPosition at this
      rw [if_pos hp] at this
      exact this
  · intro hp
    unfold setPosition
    rw [if_neg hp]

/-- C8 at `ready`: `bottom-left` is taken over, `middle` is ignored. -/
theorem setPosition_valid_or_ignored_witness :
    ("bottom-left" ∈ positions ∧ (setPosition "bottom-left" ready).currentPosition = "bottom-left") ∧
    ("middle" ∉ positions ∧ setPosition "middle" ready = ready) :=
  ⟨⟨by decide, ((setPosition_valid_or_ignored "bottom-left" ready).1 (by decide)).1⟩,
   ⟨by decide, (setPosition_valid_or_ignored "middle" ready).2 (by decide)⟩⟩

/-- C9 fails on the code: `fire` takes over any truthy `position` that differs
from the current one, without looking it up in `positions`.  After
`fire({position: 'nowhere'})` on the initial state the current position and
the class of the container are `nowhere`, which is not one of the seven
positions; `setPosition('nowhere')` is ignored. -/
theorem fire_invalid_position :
    (run [Event.fire { position := some "nowhere" }] init).currentPosition = "nowhere" ∧
    (run [Event.fire { position := some "nowhere" }] init).currentPosition ∉ positions ∧
    ((run [Event.fire { position := some "nowhere" }] init).container.map
      (fun c => c.className)) = some "toast-container nowhere" ∧
    (run [Event.setPosition "nowhere"] init).currentPosition = "top-right" := by
  decide

/-- C10 as stated fails when the options carry their own `actions`: the
spread `...options` comes after the two confirm actions and replaces them.
With `ownActions` the fired toast has a single button without a callback,
and activating it leaves the promise pending. -/
theorem confirm_own_actions_counterexample :
    (run [Event.confirm (some "T") (some "M") ownActions] init).promises = [none] ∧
    ((run [Event.confirm (some "T") (some "M") ownActions] init).getElementById 0).map
      (fun t => t.actions) = some [{ text := some "OK" }] ∧
    (run [Event.confirm (some "T") (some "M") ownActions, Event.clickAction 0 0] init).promises =
      [none] := by
  decide

/-- C10, amended: let the options given to `confirm` carry no `actions` of
their own, let the texts the toast renders (icon, title, message, the two
labels) carry no markup, and let the sound lookup of `fire` not throw.  Then
in every reachable state the call returns a pending promise and fires a toast
whose two action buttons are bound to `resolve(true)` and `resolve(false)`;
activating the first resolves the promise with true, activating the second
with false, a later activation of either button does not change the value,
and no sequence of events without an action activation (close button, `hide`,
`clear`, timers, removal of the node, further calls) resolves it. -/
theorem confirm_resolves_on_action (es : List Event) (title message : Option String)
    (o : ConfirmOptions) (ho : o.actions = none)
    (hplain : (mkToast (confirmOptions title message o (run es init).promises.length)
      (run es init).toastCounter).markupFree = true)
    (hreturns : soundThrows (confirmOptions title message o (run es init).promises.length)
      (run es init).soundEnabled = false) :
    confirmE title message o (run es init) =
      Except.ok (confirm title message o (run es init)) ∧
    ((confirm title message o (run es init)).2.getElementById (run es init).toastCounter).map
        (fun t => t.markupFree) = some true ∧
    (confirm title message o (run es init)).2.promises = (run es init).promises ++ [none] ∧
    ((confirm title message o (run es init)).2.getElementById (run es init).toastCounter).map
        (fun t => t.actions) =
      some [{ text := some (orDefault o.confirmText "Yes"),
              onClick := some (Callback.resolve (run es init).promises.length true) },
            { text := some (orDefault o.cancelText "No"),
              onClick := some (Callback.resolve (run es init).promises.length false) }] ∧
    (clickAction (run es init).toastCounter 0
        (confirm title message o (run es init)).2).promises[(run es init).promises.length]? =
      some (some true) ∧
    (clickAction (run es init).toastCounter 1
        (confirm title message o (run es init)).2).promises[(run es init).promises.length]? =
      some (some false) ∧
    (∀ i j : Nat, i < 2 → j < 2 →
      (clickAction (run es init).toastCounter j
        (clickAction (run es init).toastCounter i
          (confirm title message o (run es init)).2)).promises[(run es init).promises.length]? =
      some (some (decide (i = 0)))) ∧
    (∀ fs : List Event, (∀ e ∈ fs, e.isClickAction = false) →
      (run fs (confirm title message o (run es init)).2).promises[(run es init).promises.length]? =
        some none) := by
  have hget : (confirm title message o (run es init)).2.getElementById (run es init).toastCounter =
      some (mkToast (confirmOptions title message o (run es init).promises.length)
        (run es init).toastCounter) :=
    getElementById_fire _ { run es init with promises := (run es init).promises ++ [none] }
      (inv_init.run es).ids_lt
  refine ⟨confirmE_of_not_throws title message o _ hreturns, ?_,
    (confirm_core title message o (run es init) ho (inv_init.run es).ids_lt).2⟩
  rw [hget]
  simp [hplain]

/-- C10, amended, at `plainConfirm` on the initial state: the second button,
then the first, resolve the promise with false; the close button, `hide` and
`clear` followed by the removal callback leave it pending. -/
theorem confirm_resolves_on_action_witness :
    plainConfirm.actions = none ∧
    (mkToast (confirmOptions none none plainConfirm (run [] init).promises.length)
      (run [] init).toastCounter).markupFree = true ∧
    soundThrows (confirmOptions none none plainConfirm (run [] init).promises.length)
      (run [] init).soundEnabled = false ∧
    (clickAction (run [] init).toastCounter 0
      (clickAction (run [] init).toastCounter 1
        (confirm none none plainConfirm (run [] init)).2)).promises[(run [] init).promises.length]? =
      some (some (decide (1 = 0))) ∧
    (∀ e ∈ [Event.clickClose 0, Event.hide 0, Event.clear, Event.timer 1],
      e.isClickAction = false) ∧
    (run [Event.clickClose 0, Event.hide 0, Event.clear, Event.timer 1]
      (confirm none none plainConfirm (run [] init)).2).promises[(run [] init).promises.length]? =
      some none :=
  ⟨rfl, by decide, by decide,
   (confirm_resolves_on_action [] none none plainConfirm rfl (by decide)
     (by decide)).2.2.2.2.2.2.1 1 0 (by decide) (by decide),
   by decide,
   (confirm_resolves_on_action [] none none plainConfirm rfl (by decide)
     (by decide)).2.2.2.2.2.2.2
     [Event.clickClose 0, Event.hide 0, Event.clear, Event.timer 1] (by decide)⟩

/-- C11 fails on the code at `cancelOnly`, `Swal.fire({title: 'Delete?', timer:
3000, showCancelButton: true})`: `showConfirmButton` is not set, yet the
configuration passed to `Toast.fire` carries a confirm action in front of the
cancel action, because the shim tests `options.showConfirmButton !== false`
on the raw options.  The rest of the claim holds there: the duration is
forced to 0 and `fire` schedules the show callback only. -/
theorem swal_cancel_only_adds_confirm :
    cancelOnly.showConfirmButton = none ∧
    cancelOnly.showCancelButton = some true ∧
    (swalToastOptions cancelOnly).actions =
      some [{ text := some "OK", onClick := some (Callback.guarded none) },
            { text := some "Cancel", onClick := some (Callback.guarded none) }] ∧
    (swalToastOptions cancelOnly).duration = some 0 ∧
    (Swal.fire cancelOnly init).2.timers = [((0 : Int), Task.addShow 0)] := by
  decide

/-- C12: in every reachable state the `processing` flag is false, and it is
false in every state in which `process` is entered by the task that runs
next (in `add`, in the 200 ms callback, in the settle callback).  So the
call admits the head of the queue when `currentCount < maxConcurrent` and the
queue is not empty, returns the state unchanged otherwise, and does what
`process` without the flag does.  The whole library behaves, state by state,
like the library whose queue has no flag. -/
theorem processing_flag_never_blocks (es : List Event) :
    (run es init).toastQueue.processing = false ∧
    (∀ (e : Event) (t : State), t ∈ processEntries e (run es init) →
      t.toastQueue.processing = false ∧
      (t.toastQueue.currentCount < t.toastQueue.maxConcurrent ∧ t.toastQueue.queue ≠ [] →
        admittedRequests (process t).log =
          admittedRequests t.log ++ t.toastQueue.queue.take 1 ∧
        (process t).toastQueue.queue = t.toastQueue.queue.drop 1 ∧
        (process t).toastQueue.currentCount = t.toastQueue.currentCount + 1) ∧
      (¬ (t.toastQueue.currentCount < t.toastQueue.maxConcurrent ∧ t.toastQueue.queue ≠ []) →
        process t = t) ∧
      process t = processNoFlag t) ∧
    (∀ e : Event, step e (run es init) = stepNoFlag e (run es init)) ∧
    run es init = runNoFlag es init := by
  have hI := inv_init.run es
  refine ⟨hI.not_processing, ?_, fun e => step_eq_noFlag e _ hI.not_processing,
    run_eq_noFlag es init inv_init⟩
  intro e t ht
  have hp := processEntries_processing e _ hI.not_processing t ht
  refine ⟨hp, ?_, ?_, process_eq_noFlag t hp⟩
  · rintro ⟨hc, hq⟩
    cases hq' : t.toastQueue.queue with
    | nil => exact absurd hq' hq
    | cons o rest =>
      obtain ⟨_, _, _, e4, e5, _⟩ := process_admits t o rest hp hc hq'
      rw [e4, e5, admittedRequests_append]
      simp [admittedRequests]
  · intro hn
    apply process_noop
    by_cases hc : t.toastQueue.currentCount < t.toastQueue.maxConcurrent
    · right; right
      by_contra hq
      exact hn ⟨hc, hq⟩
    · right; left; omega

/-- C12 at `oneQueued`: the pass entered by one more `Toast.queue` call admits
the request, and the 200 ms callback of the earlier pass, which finds the
queue empty, returns the state unchanged. -/
theorem processing_flag_never_blocks_witness :
    (∃ t, t ∈ processEntries (Event.queue {}) (run [Event.domContentLoaded, Event.queue {}] init) ∧
      (t.toastQueue.currentCount < t.toastQueue.maxConcurrent ∧ t.toastQueue.queue ≠ []) ∧
      (process t).toastQueue.currentCount = t.toastQueue.currentCount + 1) ∧
    (∃ t, t ∈ processEntries (Event.timer 2) (run [Event.domContentLoaded, Event.queue {}] init) ∧
      ¬ (t.toastQueue.currentCount < t.toastQueue.maxConcurrent ∧ t.toastQueue.queue ≠ []) ∧
      process t = t) :=
  ⟨⟨(processEntries (Event.queue {}) oneQueued).head (by decide), by decide, by decide,
    (((processing_flag_never_blocks [Event.domContentLoaded, Event.queue {}]).2.1
      (Event.queue {}) _ (by decide)).2.1 (by decide)).2.2⟩,
   ⟨(processEntries (Event.timer 2) oneQueued).head (by decide), by decide, by decide,
    ((processing_flag_never_blocks [Event.domContentLoaded, Event.queue {}]).2.1
      (Event.timer 2) _ (by decide)).2.2.1 (by decide)⟩⟩

end AdvancedToast
